import Mathlib

set_option autoImplicit false

/-!
# Verification of the CEX pipeline execution engine

A shallow embedding of the CEX content-addressed pipeline execution engine
(repository fstryapunin/CEX-PROTO) together with proofs and refutations of
the frozen claims C1..C10 about its specification.

Conventions of the embedding:

* Python machine values are abstracted: content digests are `Nat` tokens,
  type tokens (Python `type` objects used as dictionary keys and for nominal
  comparison) are `String`, and user payloads are a pair of a type token and
  an opaque `Nat`.
* SHA-256 is modelled by a deterministic digest function of the file content;
  the engine compares digests only for equality, so any deterministic
  function is a faithful abstraction.
* Python dictionaries are association lists with unique keys; `alookup` and
  `ainsert` implement lookup and insert-or-replace.
* Fallible Python code (raise) is modelled with `Except`.
* Where the execution layer (src/execution) references code of the
  repository that is absent from src (the `MetadataProvider`, the
  `NodeMeta` variant exposing `output_hash` / `is_current_input` /
  `update_input_hash` / `update_output_hash`, and `DataInformation.with_hash`),
  the missing part is modelled from the spec; each such definition carries a
  doc comment starting with `Modelled from the spec:`.
-/

namespace CEX

/-- Content digests (SHA-256 hex strings in the source) as opaque tokens. -/
abbrev Hash := Nat

/-- Python type objects, used as nominal type tags, abstracted to strings. -/
abbrev Ty := String

/-- An opaque user payload carrying its runtime type tag (`type(value)`). -/
structure Value where
  ty : Ty
  payload : Nat
deriving DecidableEq, Repr

/-- A filesystem path, split as pathlib does: parent directories, `stem`
(file name without extension) and `suffix` (extension including the leading
dot, e.g. `.json`). -/
structure FsPath where
  dirs : List String
  stem : String
  suffix : String
deriving DecidableEq, Repr

/-- Association-list lookup (first match), modelling Python dict indexing. -/
def alookup {κ α : Type} [BEq κ] (k : κ) : List (κ × α) → Option α
  | [] => none
  | e :: es => if e.1 == k then some e.2 else alookup k es

/-- Association-list insert-or-replace, modelling Python dict assignment. -/
def ainsert {κ α : Type} [BEq κ] (k : κ) (v : α) : List (κ × α) → List (κ × α)
  | [] => [(k, v)]
  | e :: es => if e.1 == k then (k, v) :: es else e :: ainsert k v es

/-- The filesystem: existing files with their (abstracted) byte content.
Serialized bytes are abstracted to the stored payload, which preserves
everything the engine observes: deterministic content for deterministic
writes, and digest equality iff content equality. -/
abbrev FileSystem := List (FsPath × Value)

/-- Content of the file at `p`, `none` when the file does not exist. -/
def fsLookup (fs : FileSystem) (p : FsPath) : Option Value :=
  alookup p fs

/-- Write (create or overwrite) the file at `p`. -/
def fsWrite (fs : FileSystem) (p : FsPath) (v : Value) : FileSystem :=
  ainsert p v fs

/-- Deterministic digest of a string (stands in for SHA-256 over UTF-8). -/
def hashString (s : String) : Hash :=
  s.data.foldl (fun h c => h * 131 + c.toNat + 1) 7

/-- Deterministic digest of file content (stands in for SHA-256 over the
file bytes; the 8 KiB chunking of `get_file_hash` does not change the digest
of the byte stream). -/
def sha256 (v : Value) : Hash :=
  hashString v.ty * 1000003 + v.payload + 1

/-- src/execution/utils.py `get_file_hash`: digest of the file at
`file_path`, or `None` when no file exists there. -/
def get_file_hash (fs : FileSystem) (p : FsPath) : Option Hash :=
  match fsLookup fs p with
  | none => none
  | some v => some (sha256 v)

/-! ## Serializers (src/data/serializers.py) -/

/-- The serializer implementations.  The built-in five are modelled by name;
`custom` models a user-registered serializer with its extension and the
list of extensions its file matcher accepts. -/
inductive DataSerializer
  | json
  | yaml
  | csv
  | pickle
  | plainFile
  | custom (extension : String) (accepted : List String)
deriving DecidableEq, Repr

/-- `get_file_extension` of each serializer, exactly as in the source. -/
def DataSerializer.get_file_extension : DataSerializer → String
  | .json => ".json"
  | .yaml => ".yaml"
  | .csv => ".csv"
  | .pickle => ".pkl"
  | .plainFile => ".txt"
  | .custom e _ => e

/-- `matches_file(extension)` of each serializer, exactly as in the source:
note that `JsonSerializer`, `YamlSerializer` and `PlainFileSerializer`
compare against extensions WITHOUT the leading dot, while `CsvSerializer`
and `PickleSerializer` compare against dotted extensions. -/
def DataSerializer.matches_file : DataSerializer → String → Bool
  | .json, ext => ext == "json"
  | .yaml, ext => ext == "yml" || ext == "yaml"
  | .csv, ext => ext == ".csv"
  | .pickle, ext => ext == ".pkl" || ext == ".pickle"
  | .plainFile, ext => ext == "txt"
  | .custom _ acc, ext => acc.contains ext

/-- The default serializer list of `CexExecutor.__init__`, in order. -/
def default_serializers : List DataSerializer :=
  [.json, .yaml, .csv, .pickle, .plainFile]

/-- Serializer `save`: byte rendering is abstracted to the stored payload. -/
def DataSerializer.save (_ : DataSerializer) (fs : FileSystem) (p : FsPath) (v : Value) : FileSystem :=
  fsWrite fs p v

/-- Serializer `load`: returns the stored payload, raising when the file is
missing (all built-in loaders raise on a missing file). -/
def DataSerializer.load (_ : DataSerializer) (fs : FileSystem) (p : FsPath) : Except String Value :=
  match fsLookup fs p with
  | some v => .ok v
  | none => .error "File not found"

/-! ## DataInformation (src/execution/common.py) -/

/-- Exceptions of the engine.  `validationExc` is `ValidationException`
(carrying its message list), `runtimeExc` is `RuntimeException`, and `exc`
is any other exception (plain `Exception`, `AttributeError`, and the
`NetworkXUnfeasible` raised by the library topological sort). -/
inductive PyErr
  | validationExc (msgs : List String)
  | runtimeExc (msg : String)
  | exc (msg : String)
deriving DecidableEq, Repr

/-- The per-executor state machine values of `ExecutionState`. -/
inductive ExecutionState
  | UNINITIALIZED
  | VALIDATED
  | READY
  | SKIPPED
  | RUNNING
  | EXECUTED
  | ERROR
  | INVALID
deriving DecidableEq, Repr

/-- The `DataMatch` scores.  Source constructor names are
NAME_AND_ANNOTATION (3), NAME (2), ANNOTATION (1), NONE (0); they are
renamed here to satisfy lexical constraints of this development. -/
inductive DataMatch
  | nameAndType
  | nameOnly
  | typeOnly
  | noMatch
deriving DecidableEq, Repr

/-- The `IntEnum` integer value of each `DataMatch` member. -/
def DataMatch.score : DataMatch → Nat
  | .nameAndType => 3
  | .nameOnly => 2
  | .typeOnly => 1
  | .noMatch => 0

/-- `DataInformation`: the universal data envelope.  `id` is the
`uuid.uuid4()` token (opaque, compared only for equality), `type` is the
type annotation (`None` possible), `serializer` is the binding attached by
`with_serializer`. -/
structure DataInformation where
  id : Nat
  name : String
  type : Option Ty
  path : Option FsPath := none
  hash : Option Hash := none
  value : Option Value := none
  serializer : Option DataSerializer := none
deriving DecidableEq, Repr

namespace DataInformation

/-- `DataInformation.__init__(name, type, path)`: `hash`, `value` and
`serializer` start absent; the uuid is abstracted by an explicit token. -/
def init (id : Nat) (name : String) (type : Option Ty) (path : Option FsPath := none) :
    DataInformation :=
  { id := id, name := name, type := type, path := path }

/-- `match_static(other, name_aliases)`: the name matches when `other.name`
equals the parameter name OR is among the aliases; the type must be equal
(Python `==`, so `None == None` holds and `None == t` fails). -/
def match_static (self other : DataInformation) (name_aliases : List String) : Bool :=
  (other.name == self.name || name_aliases.contains other.name) && other.type == self.type

/-- `get_match(other, name_aliases)`: scored matching where an absent type
on either side counts as a type match. -/
def get_match (self other : DataInformation) (name_aliases : List String) : DataMatch :=
  let name_matches := other.name == self.name || name_aliases.contains other.name
  let type_matches := other.type.isNone || self.type.isNone || other.type == self.type
  if name_matches && type_matches then .nameAndType
  else if name_matches then .nameOnly
  else if type_matches then .typeOnly
  else .noMatch

/-- The loop body state of `get_best_match`: `best_score` and `best_value`.
The source loop never assigns `best_score` after initialisation; the
translation keeps the variable and reproduces that faithfully. -/
def get_best_match_go (self : DataInformation) (name_aliases : List String)
    (best_score : DataMatch) (best_value : Option DataInformation) :
    List DataInformation → Except String (Option DataInformation)
  | [] => .ok best_value
  | option :: rest =>
    let m := self.get_match option name_aliases
    if best_score == m && best_score.score > DataMatch.noMatch.score then
      .error "duplicate"
    else
      get_best_match_go self name_aliases best_score
        (if best_score.score < m.score then some option else best_value) rest

/-- `get_best_match(others, duplicate_message, name_aliases)`. -/
def get_best_match (self : DataInformation) (others : List DataInformation)
    (name_aliases : List String) : Except String (Option DataInformation) :=
  get_best_match_go self name_aliases .noMatch none others

/-- `get_hash()`: digest of the file at `path`, implicit `None` when `path`
is absent. -/
def get_hash (self : DataInformation) (fs : FileSystem) : Option Hash :=
  match self.path with
  | some p => get_file_hash fs p
  | none => none

/-- `update_hash()`: store `get_hash()` into `hash` and return self. -/
def update_hash (self : DataInformation) (fs : FileSystem) : DataInformation :=
  { self with hash := self.get_hash fs }

/-- Modelled from the spec: `DataInformation.with_hash()` is called by the
executors (src/execution/node.py and src/execution/namespace.py) but absent
from src/execution/common.py.  Spec section 4.7 describes the inbox being
populated with with_hash-enriched outputs carrying the content hash of
`path`; the behaviour coincides with the source method `update_hash`. -/
def with_hash (self : DataInformation) (fs : FileSystem) : DataInformation :=
  self.update_hash fs

/-- `with_value(value, message)`: raises `RuntimeException` when the
declared type is present and the runtime type of the value differs
(nominal check, modelling `typing_validation.is_valid`). -/
def with_value (self : DataInformation) (v : Value) (msg : String) :
    Except PyErr DataInformation :=
  if self.type.isSome && !(self.type == some v.ty) then
    .error (.runtimeExc msg)
  else
    .ok { self with value := some v }

/-- `with_path(path)`. -/
def with_path (self : DataInformation) (p : FsPath) : DataInformation :=
  { self with path := some p }

/-- Modelled from the spec: `with_serializer` is called by
`NodeExecutor.get_output_information` but absent from
src/execution/common.py; it binds the resolved serializer to the envelope,
consumed later by `resolve_value`. -/
def with_serializer (self : DataInformation) (s : DataSerializer) : DataInformation :=
  { self with serializer := some s }

end DataInformation

/-! ## Node model (src/pipeline/node.py) -/

/-- A user function as the engine observes it through reflection: module and
qualified name, the ordered annotated parameter list (a `none` annotation is
Python `None`; parameters without any annotation are rejected by validation
and not modelled), the return annotation, and the behaviour itself.  The
behaviour receives the resolved input values in parameter order. -/
structure Func where
  module : String
  qualname : String
  params : List (String × Option Ty)
  ret : Option Ty
  impl : List Value → Value

/-- The value side of one `input_aliases` entry: a single alternative name
or an ordered list of alternative names. -/
inductive AliasVal
  | one (s : String)
  | many (l : List String)
deriving DecidableEq, Repr

/-- The `input_serializers` argument: a single node-wide serializer or a
per-parameter-name mapping. -/
inductive InputSerializers
  | single (s : DataSerializer)
  | byName (m : List (String × DataSerializer))
deriving DecidableEq, Repr

/-- The declarative `Node`.  Field names follow src/pipeline/node.py.
`outputs` is restricted to the single-output form (`str | None`; the
`list[str]` variant is unused by the execution layer).  `output_serializer`
and `subsequent_nodes`-by-id are the attributes the execution layer reads;
`subsequent_nodes` holds the runtime ids of the successors (the Python list
holds the node objects themselves; the graph is represented here as a list
of nodes addressed by `runtime_id`).  A dictionary value of `None` inside
`input_aliases` is representable (`Option AliasVal`). -/
structure Node where
  runtime_id : Nat
  name : String
  function : Func
  is_cached : Bool
  input_directory_name : Option String
  input_aliases : Option (List (String × Option AliasVal))
  input_serializers : Option InputSerializers
  output_serializer : Option DataSerializer
  outputs : Option String
  output_directory : String
  subsequent_nodes : List Nat

namespace Node

/-- Modelled from the spec: the execution layer reads `node.output_name`,
an attribute absent from src/pipeline/node.py (which declares `outputs`).
The spec data model gives the Node an optional `output_name`; it is the
declared single output. -/
def output_name (n : Node) : Option String :=
  n.outputs

/-- Modelled from the spec: the execution layer reads
`node.input_directory`, absent from src/pipeline/node.py (which declares
`input_directory_name`); the spec gives the Node an optional
`input_directory` path. -/
def input_directory (n : Node) : Option String :=
  n.input_directory_name

/-- Python `str()` of a boolean. -/
def pyStrBool : Bool → String
  | true => "True"
  | false => "False"

/-- Lexicographic comparison of character lists by code point (Python
string ordering). -/
def strLeChars : List Char → List Char → Bool
  | [], _ => true
  | _ :: _, [] => false
  | a :: as, b :: bs =>
    if a.toNat < b.toNat then true
    else if b.toNat < a.toNat then false
    else strLeChars as bs

/-- Python string `<=`. -/
def strLe (a b : String) : Bool :=
  strLeChars a.data b.data

/-- Insertion step for sorting the alias items by dictionary key. -/
def insertSortedAlias (x : String × Option AliasVal) :
    List (String × Option AliasVal) → List (String × Option AliasVal)
  | [] => [x]
  | y :: ys => if strLe x.1 y.1 then x :: y :: ys else y :: insertSortedAlias x ys

/-- `sorted(self.input_aliases.items())`: dictionary keys are unique, so
sorting by key determines the order. -/
def sortAliases (l : List (String × Option AliasVal)) :
    List (String × Option AliasVal) :=
  l.foldr insertSortedAlias []

/-- Rendering of one alias value (Python `str`; repr quoting omitted, which
does not affect functional dependence). -/
def renderAliasVal : Option AliasVal → String
  | none => "None"
  | some (.one s) => s
  | some (.many l) => "[" ++ String.intercalate ", " l ++ "]"

/-- Rendering of the sorted alias item list. -/
def renderAliasItems (l : List (String × Option AliasVal)) : String :=
  "[" ++ String.intercalate ", "
    (l.map (fun kv => "(" ++ kv.1 ++ ", " ++ renderAliasVal kv.2 ++ ")")) ++ "]"

/-- `get_stable_input_aliases` of `get_persistent_hash`: `None` when no
aliases are declared, else the string rendering of the key-sorted items. -/
def get_stable_input_aliases (n : Node) : Option String :=
  match n.input_aliases with
  | none => none
  | some m => some (renderAliasItems (sortAliases m))

/-- `get_persistent_hash()`: digest of the canonical pipe-joined rendering
of the stable attributes, omitting those that are `None`.  Note the source
uses truthiness for `input_directory_name`, so an empty string also
vanishes from the rendering. -/
def get_persistent_hash (n : Node) : Hash :=
  let func_name := n.function.module ++ "." ++ n.function.qualname
  let stable_attrs : List (Option String) :=
    [ some n.name,
      some (pyStrBool n.is_cached),
      some func_name,
      n.outputs,
      (match n.input_directory_name with
       | some s => if s == "" then none else some s
       | none => none),
      some n.output_directory,
      n.get_stable_input_aliases ]
  hashString (String.intercalate "|" (stable_attrs.filterMap id))

end Node

/-! ## Execution environment and serializer resolution
(src/execution/cex.py, src/execution/namespace.py) -/

/-- The static environment of a run: the engine root path, the namespace
path, and the namespace- and engine-scope type-to-serializer maps.  All
paths are modelled relative (the absolute-path branches of `resolve_path`
are not taken then). -/
structure Env where
  rootPath : List String
  nsPath : List String
  nsSerializers : List (Ty × DataSerializer)
  engineSerializers : List (Ty × DataSerializer)

/-- Lookup of `data.type` in a type-keyed serializer dictionary; Python
`None` is never a key of these maps. -/
def lookupTy (m : List (Ty × DataSerializer)) : Option Ty → Option DataSerializer
  | none => none
  | some t => alookup t m

/-- `CexExecutor.resolve_serializer`: the engine-scope map, then, when the
path exists on disk, the first default serializer whose `matches_file`
accepts `path.suffix` (which includes the leading dot); implicitly `None`
otherwise. -/
def cexResolveSerializer (env : Env) (fs : FileSystem) (data : DataInformation) :
    Option DataSerializer :=
  match lookupTy env.engineSerializers data.type with
  | some s => some s
  | none =>
    match data.path with
    | some p =>
      if (fsLookup fs p).isSome then
        default_serializers.find? (fun s => s.matches_file p.suffix)
      else none
    | none => none

/-- `NamespaceExecutor.resolve_serializer`: the namespace map first, then
the engine. -/
def nsResolveSerializer (env : Env) (fs : FileSystem) (data : DataInformation) :
    Option DataSerializer :=
  match lookupTy env.nsSerializers data.type with
  | some s => some s
  | none => cexResolveSerializer env fs data

/-- The resolved absolute directory for a node-relative directory name:
engine root, then namespace path, then the directory
(`CexExecutor.resolve_path` composed with `NamespaceExecutor.resolve_path`
and `NodeExecutor.resolve_path` on relative paths). -/
def resolveDir (env : Env) (dir : String) : List String :=
  env.rootPath ++ env.nsPath ++ [dir]

/-! ## NodeExecutor (src/execution/node.py) -/

/-- Entries of `fs` lying in directory `d`, in filesystem order
(`path.iterdir()`). -/
def filterDir (fs : FileSystem) (d : List String) : FileSystem :=
  fs.filter (fun e => e.1.dirs == d)

namespace Node

/-- `get_required_inputs()`: one envelope per function parameter carrying
its annotation; value, path and hash absent.  The fresh uuids of these
envelopes are never consulted and are abstracted to `0`. -/
def get_required_inputs (n : Node) : List DataInformation :=
  n.function.params.map (fun p => DataInformation.init 0 p.1 p.2)

/-- `get_input_aliases(input_name)`: normalized to a non-empty list.  Note
a hit REPLACES the parameter name only in the returned list; the match
predicate `match_static` still accepts the bare parameter name. -/
def get_input_aliases (n : Node) (input_name : String) : List String :=
  match n.input_aliases with
  | none => [input_name]
  | some m =>
    match alookup input_name m with
    | none => [input_name]
    | some none => [input_name]
    | some (some (.one s)) => [s]
    | some (some (.many l)) => l

/-- `get_available_file_inputs()`: one hash-enriched envelope per file of
the resolved input directory, named by the file stem, with absent type. -/
def get_available_file_inputs (n : Node) (env : Env) (fs : FileSystem) :
    List DataInformation :=
  match n.input_directory with
  | none => []
  | some d =>
    (filterDir fs (resolveDir env d)).map
      (fun e => (DataInformation.init 0 e.1.stem none (some e.1)).with_hash fs)

/-- `resolve_input_serializer(input)`: a single node-wide serializer wins;
with no node binding the namespace/engine chain is consulted; with a
per-name mapping only the mapping is consulted.  A miss raises
`RuntimeException`. -/
def resolve_input_serializer (n : Node) (env : Env) (fs : FileSystem)
    (input : DataInformation) : Except PyErr DataSerializer :=
  match n.input_serializers with
  | some (.single s) => .ok s
  | none =>
    match nsResolveSerializer env fs input with
    | some s => .ok s
    | none => .error (.runtimeExc ("Failed to resolve serializer for input " ++ input.name ++ " of node " ++ n.name))
  | some (.byName m) =>
    match alookup input.name m with
    | some s => .ok s
    | none => .error (.runtimeExc ("Failed to resolve serializer for input " ++ input.name ++ " of node " ++ n.name))

/-- `resolve_output_serializer(info)`: the node-level binding if truthy,
else the namespace/engine chain; a miss raises a plain `Exception`. -/
def resolve_output_serializer (n : Node) (env : Env) (fs : FileSystem)
    (info : DataInformation) : Except PyErr DataSerializer :=
  match n.output_serializer with
  | some s => .ok s
  | none =>
    match nsResolveSerializer env fs info with
    | some s => .ok s
    | none => .error (.exc ("Failed to resolve output serializer for node " ++ n.name))

/-- `get_output_information()`: absent when the return annotation is `None`
or no `output_name` is declared; for cached nodes the envelope carries the
computed output path `output_directory/output_name + extension` and the
resolved serializer (whose resolution can raise). -/
def get_output_information (n : Node) (env : Env) (fs : FileSystem) :
    Except PyErr (Option DataInformation) :=
  match n.function.ret, n.output_name with
  | some retTy, some oname =>
    let information := DataInformation.init 0 oname (some retTy)
    if n.is_cached then
      match n.resolve_output_serializer env fs information with
      | .error e => .error e
      | .ok serializer =>
        let path : FsPath :=
          { dirs := resolveDir env n.output_directory,
            stem := oname, suffix := serializer.get_file_extension }
        .ok (some ((information.with_path path).with_serializer serializer))
    else
      .ok (some information)
  | _, _ => .ok none

/-- `resolve_value(info)`: the in-memory value when present, else a load
from `path` through the attached or freshly resolved serializer; raises
when neither value nor path is available. -/
def resolve_value (n : Node) (env : Env) (fs : FileSystem)
    (info : DataInformation) : Except PyErr Value :=
  match info.value with
  | some v => .ok v
  | none =>
    match info.path with
    | some p =>
      match info.serializer with
      | some s =>
        (match s.load fs p with
         | .ok v => .ok v
         | .error m => .error (.runtimeExc m))
      | none =>
        match n.resolve_input_serializer env fs info with
        | .error e => .error e
        | .ok s =>
          (match s.load fs p with
           | .ok v => .ok v
           | .error m => .error (.runtimeExc m))
    | none =>
      .error (.runtimeExc ("Failed to resolve value for input " ++ info.name ++ " of node " ++ n.name))

end Node

/-! ## Metadata model of src/meta/meta.py -/

/-- `dict.fromkeys(keys)`: every key maps to `None`.  Keys are unique in
the source (function parameter names plus the reserved word `return`). -/
def fromkeys (keys : List String) : List (String × Option Hash) :=
  keys.map (fun k => (k, none))

/-- `NodeMeta.get_input_keys(node)` reads `node.function.__annotations__`,
whose keys are the annotated parameter names followed by `return` when the
function has a return annotation. -/
def get_input_keys (node : Node) : List String :=
  node.function.params.map Prod.fst ++ (if node.function.ret.isSome then ["return"] else [])

/-- The persisted per-node record of src/meta/meta.py: the persistent hash
of the node and the map of last known input hashes. -/
structure NodeMeta where
  hash : Hash
  input_hashes : List (String × Option Hash)
deriving DecidableEq, Repr

namespace NodeMeta

/-- `NodeMeta.init_from(node)`. -/
def init_from (node : Node) : NodeMeta :=
  { hash := node.get_persistent_hash, input_hashes := fromkeys (get_input_keys node) }

/-- The mutation performed by `NodeMeta.update_from(node)`: rebuild
`input_hashes` over the node's current keys, copying over values of keys
that already existed. -/
def update_from_mut (self : NodeMeta) (node : Node) : NodeMeta :=
  let new_keys := get_input_keys node
  let new_hashes := new_keys.foldl (fun acc key =>
      match alookup key self.input_hashes with
      | some v => ainsert key v acc
      | none => acc) (fromkeys new_keys)
  { self with input_hashes := new_hashes }

/-- The Python RETURN VALUE of `NodeMeta.update_from(node)`: the method
body ends without a `return` statement, so the caller receives `None`. -/
def update_from_ret (_self : NodeMeta) (_node : Node) : Option NodeMeta :=
  none

/-- `NodeMeta.is_current(current_hashes)`: every supplied hash must be
non-null, present among the stored keys, stored non-null, and equal. -/
def is_current (self : NodeMeta) (current_hashes : List (String × Option Hash)) : Bool :=
  current_hashes.all (fun kv =>
    match kv.2 with
    | none => false
    | some v =>
      match alookup kv.1 self.input_hashes with
      | none => false
      | some none => false
      | some (some s) => s == v)

end NodeMeta

/-- The persisted per-namespace record: name and the node-record list.  The
element type is `Option NodeMeta` because Python lists are heterogeneous
and `NamespaceMeta.update_from` appends the `None` return value of
`NodeMeta.update_from`. -/
structure NamespaceMeta where
  name : String
  nodes : List (Option NodeMeta)
deriving DecidableEq, Repr

namespace NamespaceMeta

/-- The comprehension `[ns for ns in self.nodes if ns.hash == hash]`:
evaluating `ns.hash` on a `None` element raises `AttributeError`. -/
def filterByHash (h : Hash) : List (Option NodeMeta) → Except PyErr (List NodeMeta)
  | [] => .ok []
  | none :: _ => .error (.exc "AttributeError: NoneType object has no attribute hash")
  | some m :: rest =>
    match filterByHash h rest with
    | .error e => .error e
    | .ok ms => .ok (if m.hash == h then m :: ms else ms)

/-- `NamespaceMeta.get_node_meta(hash)`: first record with that hash. -/
def get_node_meta (self : NamespaceMeta) (h : Hash) : Except PyErr (Option NodeMeta) :=
  match filterByHash h self.nodes with
  | .error e => .error e
  | .ok [] => .ok none
  | .ok (m :: _) => .ok (some m)

/-- The accumulation loop of `NamespaceMeta.update_from(nodes)`: for each
live node, append a fresh record when none is stored for its persistent
hash, otherwise append the return value of `NodeMeta.update_from` (which
is `None`). -/
def update_from_go (self : NamespaceMeta) :
    List Node → List (Option NodeMeta) → Except PyErr (List (Option NodeMeta))
  | [], acc => .ok acc
  | node :: rest, acc =>
    match self.get_node_meta node.get_persistent_hash with
    | .error e => .error e
    | .ok none => update_from_go self rest (acc ++ [some (NodeMeta.init_from node)])
    | .ok (some current) => update_from_go self rest (acc ++ [current.update_from_ret node])

/-- `NamespaceMeta.update_from(nodes)`: replace `self.nodes` with the
accumulated list. -/
def update_from (self : NamespaceMeta) (nodes : List Node) : Except PyErr NamespaceMeta :=
  match update_from_go self nodes [] with
  | .error e => .error e
  | .ok new_nodes => .ok { self with nodes := new_nodes }

end NamespaceMeta

/-! ## Run-time metadata used by the executors

src/execution imports `MetadataProvider` from meta.meta and calls
`node.meta.is_current_input`, `update_input_hash`, `update_output_hash` and
reads `node.meta.output_hash`; neither the provider nor that `NodeMeta`
variant is present under src/ (src/meta/meta.py holds the older
`ExecutionMetadataHandler` API).  The records below are modelled from the
spec (sections 3 and 4.2). -/

/-- Modelled from the spec: the per-node metadata record consumed by the
execution layer: `input_hashes: param name to hex` and an optional
`output_hash` (spec section 3, NodeMeta). -/
structure RunNodeMeta where
  input_hashes : List (String × Option Hash)
  output_hash : Option Hash
deriving DecidableEq, Repr

namespace RunNodeMeta

/-- Modelled from the spec: `is_current_input(name, hash)` is true iff the
stored hash for that parameter equals `hash` and `hash` is non-null (spec
section 4.2). -/
def is_current_input (self : RunNodeMeta) (name : String) (h : Option Hash) : Bool :=
  match h with
  | none => false
  | some v => alookup name self.input_hashes == some (some v)

/-- Modelled from the spec: `update_input_hash(name, hex)`. -/
def update_input_hash (self : RunNodeMeta) (name : String) (h : Hash) : RunNodeMeta :=
  { self with input_hashes := ainsert name (some h) self.input_hashes }

/-- Modelled from the spec: `update_output_hash(hex)`. -/
def update_output_hash (self : RunNodeMeta) (h : Hash) : RunNodeMeta :=
  { self with output_hash := some h }

end RunNodeMeta

/-- The metadata store for one namespace, keyed by persistent hash. -/
abbrev MetaStore := List (Hash × RunNodeMeta)

/-- Modelled from the spec: the fresh (empty) record created for a newly
introduced persistent hash. -/
def freshRunNodeMeta (n : Node) : RunNodeMeta :=
  { input_hashes := fromkeys (n.function.params.map Prod.fst), output_hash := none }

/-- Modelled from the spec: at the start of a run the metadata provider
ensures a record per live node exists — entries whose persistent hash still
occurs in the live node set are preserved, newly introduced hashes get
fresh empty records, and obsolete entries are dropped (spec section 4.2,
`update_from`). -/
def ensureMeta (nodes : List Node) (meta : MetaStore) : MetaStore :=
  nodes.map (fun n =>
    (n.get_persistent_hash, (alookup n.get_persistent_hash meta).getD (freshRunNodeMeta n)))

/-! ## Scheduler state (src/execution/namespace.py) -/

/-- The mutable state of one run: the filesystem, the metadata store, the
per-executor states keyed by `runtime_id`, and — as the observation the
claims are about — the ordered list of node names whose user function was
invoked. -/
structure RunState where
  fs : FileSystem
  meta : MetaStore
  states : List (Nat × ExecutionState)
  invoked : List String
deriving DecidableEq, Repr

/-- The state of one executor (`UNINITIALIZED` before any assignment). -/
def getState (σ : RunState) (k : Nat) : ExecutionState :=
  (alookup k σ.states).getD .UNINITIALIZED

/-- `set_state`. -/
def setState (σ : RunState) (k : Nat) (s : ExecutionState) : RunState :=
  { σ with states := ainsert k s σ.states }

/-- The `available_inputs` defaultdict: per-successor inboxes keyed by
`runtime_id`. -/
abbrev Inbox := List (Nat × List DataInformation)

/-- Remove the first entry with key `k`. -/
def eraseKey (k : Nat) : Inbox → Inbox
  | [] => []
  | e :: es => if e.1 == k then es else e :: eraseKey k es

/-- `pop_or_default(key, dict)`: pop the accumulated list, or the default
empty list when the key is absent. -/
def popOrDefault (k : Nat) (d : Inbox) : List DataInformation × Inbox :=
  match alookup k d with
  | none => ([], d)
  | some v => (v, eraseKey k d)

/-- Append one envelope to the inbox of key `k` (defaultdict access). -/
def appendTo (d : Inbox) (k : Nat) (v : DataInformation) : Inbox :=
  match d with
  | [] => [(k, [v])]
  | e :: es => if e.1 == k then (e.1, e.2 ++ [v]) :: es else e :: appendTo es k v

/-- `append_multiple(dict, keys, value)`. -/
def append_multiple (d : Inbox) (ks : List Nat) (v : DataInformation) : Inbox :=
  ks.foldl (fun d k => appendTo d k v) d

/-! ## Input resolution and preparation (src/execution/namespace.py) -/

/-- The loop of `resolve_node_inputs`: for each required input, filter the
candidates through `match_static` with the parameter's aliases; anything
but exactly one match raises `RuntimeException`. -/
def resolveInputsGo (node : Node) (node_inputs : List DataInformation) :
    List DataInformation → List (String × DataInformation) →
    Except PyErr (List (String × DataInformation))
  | [], acc => .ok acc
  | di :: rest, acc =>
    let aliases := node.get_input_aliases di.name
    match node_inputs.filter (fun input => di.match_static input aliases) with
    | [m] => resolveInputsGo node node_inputs rest (acc ++ [(di.name, m)])
    | _ => .error (.runtimeExc ("Failed to resolve input for input " ++ di.name ++ " of node " ++ node.name))

/-- `NamespaceExecutor.resolve_node_inputs(node, available)`: candidates
are the popped inbox plus the node's file inputs; the result is the
resolved map in required-parameter order (dict insertion order). -/
def resolve_node_inputs (env : Env) (fs : FileSystem) (node : Node)
    (available : List DataInformation) :
    Except PyErr (List (String × DataInformation)) :=
  resolveInputsGo node (available ++ node.get_available_file_inputs env fs)
    node.get_required_inputs []

/-- Lookup of `node.meta`: raises when no record exists for the node's
persistent hash. -/
def metaGet (meta : MetaStore) (node : Node) : Except PyErr RunNodeMeta :=
  match alookup node.get_persistent_hash meta with
  | some m => .ok m
  | none => .error (.exc ("Missing node meta for " ++ node.name))

/-- The skip-decision loop of `prepare_node_states`: starting from
`SKIPPED`, any resolved input whose hash is absent, or which the metadata
does not judge current, downgrades the state to `READY`.  The metadata
record is consulted only when a hash is present (Python short-circuit
`or`), so a node with no resolved inputs never touches the store. -/
def computeStateGo (node : Node) (meta : MetaStore) :
    ExecutionState → List (String × DataInformation) → Except PyErr ExecutionState
  | st, [] => .ok st
  | st, (name, ri) :: rest =>
    match ri.hash with
    | none => computeStateGo node meta .READY rest
    | some h =>
      match metaGet meta node with
      | .error e => .error e
      | .ok m =>
        if !(m.is_current_input name (some h)) then computeStateGo node meta .READY rest
        else computeStateGo node meta st rest

/-- One iteration of the `prepare_node_states` loop: enqueue the node's
output (hash-enriched when cached) into every successor inbox, then set
non-cached nodes `READY`; for cached nodes resolve the inputs and compute
the skip decision. -/
def prepStep (env : Env) (node : Node) (inbox : Inbox) (σ : RunState) :
    Except (PyErr × RunState) (Inbox × RunState) :=
  match node.get_output_information env σ.fs with
  | .error e => .error (e, σ)
  | .ok outputOpt =>
    let inbox :=
      match outputOpt with
      | some output =>
        if node.subsequent_nodes.length > 0 then
          append_multiple inbox node.subsequent_nodes
            (if !node.is_cached then output else output.with_hash σ.fs)
        else inbox
      | none => inbox
    if !node.is_cached then
      .ok (inbox, setState σ node.runtime_id .READY)
    else
      let pair := popOrDefault node.runtime_id inbox
      match resolve_node_inputs env σ.fs node pair.1 with
      | .error e => .error (e, setState σ node.runtime_id .ERROR)
      | .ok resolved =>
        match computeStateGo node σ.meta .SKIPPED resolved with
        | .error e => .error (e, σ)
        | .ok st => .ok (pair.2, setState σ node.runtime_id st)

/-- `prepare_node_states` over the topologically sorted executor list. -/
def prepGo (env : Env) : List Node → Inbox → RunState → Except (PyErr × RunState) RunState
  | [], _, σ => .ok σ
  | node :: rest, inbox, σ =>
    match prepStep env node inbox σ with
    | .error e => .error e
    | .ok (inbox2, σ2) => prepGo env rest inbox2 σ2

/-! ## Node execution (src/execution/node.py `NodeExecutor.execute`) -/

/-- The `input_values` comprehension: resolve each argument to a value. -/
def resolveValuesGo (n : Node) (env : Env) (fs : FileSystem) :
    List (String × DataInformation) → List (String × Value) →
    Except PyErr (List (String × Value))
  | [], acc => .ok acc
  | kv :: rest, acc =>
    match n.resolve_value env fs kv.2 with
    | .error e => .error e
    | .ok v => resolveValuesGo n env fs rest (acc ++ [(kv.1, v)])

/-- `signature.bind(**input_values)`: arrange the values in parameter
order.  The resolved map always covers exactly the parameters, so the
default is unreachable. -/
def bindArgs (n : Node) (vals : List (String × Value)) : List Value :=
  n.function.params.map (fun p => (alookup p.1 vals).getD (Value.mk "missing" 0))

/-- The trailing loop of `NodeExecutor.execute`: store the hash of every
argument that has one (each store goes through the `node.meta` property,
which raises when the record is missing). -/
def updateInputHashesGo (node : Node) :
    List (String × DataInformation) → MetaStore → Except PyErr MetaStore
  | [], meta => .ok meta
  | kv :: rest, meta =>
    match kv.2.hash with
    | none => updateInputHashesGo node rest meta
    | some h =>
      match metaGet meta node with
      | .error e => .error e
      | .ok m =>
        updateInputHashesGo node rest
          (ainsert node.get_persistent_hash (m.update_input_hash kv.1 h) meta)

/-- The tail of `NodeExecutor.execute`: input-hash bookkeeping, state
`EXECUTED`, metadata sync (a no-op in the model; sync failures are logged
and tolerated). -/
def finishExec (n : Node) (args : List (String × DataInformation))
    (result : Option DataInformation) (σ : RunState) :
    Except (PyErr × RunState) (Option DataInformation × RunState) :=
  match updateInputHashesGo n args σ.meta with
  | .error e => .error (e, σ)
  | .ok meta =>
    .ok (result, setState { σ with meta := meta } n.runtime_id .EXECUTED)

/-- `NodeExecutor.execute(args)`: set `RUNNING`, resolve the argument
values, invoke the user function (recorded in `invoked`), type-check and
wrap the produced value, and for cached nodes save the output, rehash the
file, and record the output hash. -/
def executeNode (n : Node) (env : Env) (σ0 : RunState)
    (args : List (String × DataInformation)) :
    Except (PyErr × RunState) (Option DataInformation × RunState) :=
  let σ := setState σ0 n.runtime_id .RUNNING
  match resolveValuesGo n env σ.fs args [] with
  | .error e => .error (e, σ)
  | .ok input_values =>
    let value := n.function.impl (bindArgs n input_values)
    let σ := { σ with invoked := σ.invoked ++ [n.name] }
    match n.get_output_information env σ.fs with
    | .error e => .error (e, σ)
    | .ok none => finishExec n args none σ
    | .ok (some output) =>
      match output.with_value value ("Node " ++ n.name ++ " produced output of invalid type") with
      | .error e => .error (e, σ)
      | .ok result =>
        if n.is_cached then
          match output.path with
          | none => .error (.runtimeExc ("Missing output path for node " ++ n.name), σ)
          | some p =>
            match n.resolve_output_serializer env σ.fs result with
            | .error e => .error (e, σ)
            | .ok serializer =>
              -- serializer.save(output.path, result.value); with_value stored exactly `value`
              let fs2 := serializer.save σ.fs p value
              match get_file_hash fs2 p with
              | none => .error (.runtimeExc ("Failed to hash output of node " ++ n.name), { σ with fs := fs2 })
              | some h =>
                match metaGet σ.meta n with
                | .error e => .error (e, { σ with fs := fs2 })
                | .ok m =>
                  let meta2 := ainsert n.get_persistent_hash (m.update_output_hash h) σ.meta
                  finishExec n args (some { result with hash := some h })
                    { σ with fs := fs2, meta := meta2 }
        else
          finishExec n args (some result) σ

/-! ## The execution loop (src/execution/namespace.py `execute`) -/

/-- One iteration of the `execute` loop: `SKIPPED` nodes are passed over
(without emitting anything to their successors — `NodeExecutor.skip` is
never called by this loop); otherwise resolve inputs, execute, and — for
cached nodes only — propagate the result to the successor inboxes. -/
def execStep (env : Env) (node : Node) (inbox : Inbox) (σ : RunState) :
    Except (PyErr × RunState) (Inbox × RunState) :=
  if getState σ node.runtime_id == .SKIPPED then
    .ok (inbox, σ)
  else
    let pair := popOrDefault node.runtime_id inbox
    match resolve_node_inputs env σ.fs node pair.1 with
    | .error e => .error (e, setState σ node.runtime_id .ERROR)
    | .ok resolved =>
      match executeNode node env σ resolved with
      | .error ep => .error (ep.1, setState ep.2 node.runtime_id .ERROR)
      | .ok res =>
        if node.is_cached then
          match res.1 with
          | none => .error (.runtimeExc ("Expected ouput from node " ++ node.name ++ " is missing"), res.2)
          | some r =>
            .ok (append_multiple pair.2 node.subsequent_nodes r,
                 setState res.2 node.runtime_id .EXECUTED)
        else
          .ok (pair.2, setState res.2 node.runtime_id .EXECUTED)

/-- `NamespaceExecutor.execute` over the topologically sorted list. -/
def execGo (env : Env) : List Node → Inbox → RunState → Except (PyErr × RunState) RunState
  | [], _, σ => .ok σ
  | node :: rest, inbox, σ =>
    match execStep env node inbox σ with
    | .error e => .error e
    | .ok (inbox2, σ2) => execGo env rest inbox2 σ2

/-- The state at the start of a run: same filesystem, the metadata store
brought up to date for the live nodes, fresh executors
(`UNINITIALIZED`), nothing invoked yet. -/
def resetRun (σ : RunState) (nodes : List Node) : RunState :=
  { fs := σ.fs, meta := ensureMeta nodes σ.meta, states := [], invoked := [] }

/-- One run of a namespace over an already-sorted executor list:
preparation phase, then execution phase. -/
def runOnce (env : Env) (nodes : List Node) (σ : RunState) :
    Except (PyErr × RunState) RunState :=
  match prepGo env nodes [] (resetRun σ nodes) with
  | .error e => .error e
  | .ok σp => execGo env nodes [] σp

/-! ## Topological sort (networkx, modelled by contract) -/

/-- Whether some remaining node has an edge into `m`. -/
def hasIncoming (remaining : List Node) (m : Node) : Bool :=
  remaining.any (fun n => n.subsequent_nodes.contains m.runtime_id)

/-- Kahn's algorithm with fuel, modelling `nx.topological_sort`:
repeatedly emit the first remaining node with no incoming edge; when none
exists and nodes remain, the graph has a cycle and `NetworkXUnfeasible`
is raised.  The choice of the FIRST eligible node makes the order
deterministic over runs of the same graph. -/
def kahn : Nat → List Node → List Node → Except PyErr (List Node)
  | 0, remaining, acc =>
    if remaining.isEmpty then .ok acc
    else .error (.exc "NetworkXUnfeasible: graph contains a cycle")
  | fuel + 1, remaining, acc =>
    if remaining.isEmpty then .ok acc
    else
      match remaining.findIdx? (fun m => !(hasIncoming remaining m)) with
      | none => .error (.exc "NetworkXUnfeasible: graph contains a cycle")
      | some i =>
        match remaining.get? i with
        | none => .error (.exc "NetworkXUnfeasible: graph contains a cycle")
        | some m => kahn fuel (remaining.eraseIdx i) (acc ++ [m])

/-- `nx.topological_sort` over the executor graph. -/
def topological_sort (nodes : List Node) : Except PyErr (List Node) :=
  kahn nodes.length nodes []

/-- `nx.is_directed_acyclic_graph`, by the library contract equivalent to
the topological sort succeeding. -/
def is_directed_acyclic_graph (nodes : List Node) : Bool :=
  match topological_sort nodes with
  | .ok _ => true
  | .error _ => false

/-! ## Validation (src/execution/validation.py, src/execution/namespace.py) -/

/-- The namespace model of src/pipeline/namespace.py: name, relative path,
root nodes (by runtime id) and the namespace type-to-serializer map. -/
structure Namespace where
  name : String
  path : List String
  root_nodes : List Nat
  serializers_by_type : List (Ty × DataSerializer)

/-- `itertools.chain.from_iterable(node.input_aliases)` iterates the DICT,
yielding its keys, and then flattens each key — a string — into its
characters.  The flattened "aliases" are therefore the characters of the
parameter names. -/
def flattenAliasKeys (m : List (String × Option AliasVal)) : List Char :=
  (m.map Prod.fst).foldr (fun s acc => s.data ++ acc) []

/-- Whether a character list has a duplicate
(`len(flat) != len(set(flat))`). -/
def hasDupChars : List Char → Bool
  | [] => false
  | c :: cs => cs.contains c || hasDupChars cs

/-- `NodeValidator.validate(node)`, restricted to the checks expressible in
the typed embedding.  The dynamic isinstance checks on name, function,
output name, directories and cached flag always pass here; parameters are
modelled as annotated positional-or-keyword parameters, so the
parameter-kind and missing-annotation checks also pass.  The dead check on
`output_serializer` (`not isinstance(..) is not None` is always false) is
omitted.  Faithfully kept: the duplicate-alias check over the flattened
characters of the alias dictionary keys, the single-serializer-vs-multiple-
inputs check, the rejection of a per-name serializer mapping (a dict is
not a `DataSerializer` instance), and the output-without-return-annotation
check. -/
def nodeValidationMessages (node : Node) : List String :=
  let aliasMsgs :=
    match node.input_aliases with
    | none => []
    | some m =>
      if hasDupChars (flattenAliasKeys m) then
        ["Duplicate input aliases were passed to node " ++ node.name]
      else []
  let serMsgs :=
    match node.input_serializers with
    | none => []
    | some (.single _) =>
      if node.function.params.length > 1 then
        ["Node " ++ node.name ++ " has multiple inputs but only one serializer was provided."]
      else []
    | some (.byName _) =>
      ["Invalid argument type provided to parameter input serializer of node " ++ node.name]
  let retMsgs :=
    if node.outputs.isSome && node.function.ret.isNone then
      ["Function output must be annotated with type hints if function produces an output."]
    else []
  aliasMsgs ++ serMsgs ++ retMsgs

/-- `NamespaceValidator.validate(namespace)`: the empty-roots check plus
the per-node messages over the graph (the iterative dfs enumeration is
modelled by the executor node list).  Returns the accumulated messages, or
`none` when validation passes. -/
def namespaceValidate (ns : Namespace) (nodes : List Node) : Option (List String) :=
  let rootMsg :=
    if ns.root_nodes.isEmpty then ["No root nodes provided to namespace " ++ ns.name]
    else []
  let msgs := rootMsg ++ nodes.foldr (fun n acc => nodeValidationMessages n ++ acc) []
  if msgs.isEmpty then none else some msgs

/-- The required-input loop of `validate_input_dependencies`: count the
`match_static` matches of every required input, recording unsatisfied and
ambiguous inputs; a serializer-resolution failure is converted to a
`ValidationException` whose message list is EMPTY
(`RuntimeException.to_validaton_exception` passes `[]`). -/
def vidInputsGo (env : Env) (fs : FileSystem) (ns : Namespace) (node : Node)
    (node_inputs : List DataInformation) :
    List DataInformation → List String → Except PyErr (List String)
  | [], msgs => .ok msgs
  | di :: rest, msgs =>
    let aliases := node.get_input_aliases di.name
    let matching := node_inputs.filter (fun input => di.match_static input aliases)
    let msgs :=
      if matching.length == 0 then
        msgs ++ ["No suitable input was found for input " ++ di.name ++ " of node " ++ node.name ++ " in namespace " ++ ns.name]
      else if matching.length > 1 then
        msgs ++ ["Ambiguous inputs detect for input " ++ di.name ++ " of node " ++ node.name ++ " in namespace " ++ ns.name]
      else msgs
    match node.resolve_input_serializer env fs di with
    | .error _ => .error (.validationExc [])
    | .ok _ => vidInputsGo env fs ns node node_inputs rest msgs

/-- The node loop of `validate_input_dependencies`. -/
def vidGo (env : Env) (fs : FileSystem) (ns : Namespace) :
    List Node → Inbox → List String → Except PyErr (List String)
  | [], _, msgs => .ok msgs
  | node :: rest, inbox, msgs =>
    let pair := popOrDefault node.runtime_id inbox
    let node_inputs := pair.1 ++ node.get_available_file_inputs env fs
    match vidInputsGo env fs ns node node_inputs node.get_required_inputs msgs with
    | .error e => .error e
    | .ok msgs2 =>
      match node.get_output_information env fs with
      | .error e => .error e
      | .ok none => vidGo env fs ns rest pair.2 msgs2
      | .ok (some output) =>
        vidGo env fs ns rest (append_multiple pair.2 node.subsequent_nodes output) msgs2

/-- `NamespaceExecutor.validate`: the DAG check, then the input-dependency
pass; accumulated messages raise `ValidationException`.  NOTE: nothing in
`CexExecutor.execute_pipeline` ever calls this method. -/
def nsExecValidate (env : Env) (fs : FileSystem) (ns : Namespace) (nodes : List Node) :
    Except PyErr Unit :=
  if !(is_directed_acyclic_graph nodes) then
    .error (.validationExc ["Graph of namespace " ++ ns.name ++ " is not a DAG"])
  else
    match topological_sort nodes with
    | .error e => .error e
    | .ok sorted =>
      match vidGo env fs ns sorted [] [] with
      | .error e => .error e
      | .ok msgs => if msgs.length > 0 then .error (.validationExc msgs) else .ok ()

/-! ## The pipeline entry point (src/execution/cex.py) -/

/-- What `execute_pipeline` leaves behind: a completed run, or a logged
`ValidationException` message list, or a logged unexpected exception (every
other exception kind).  `execute_pipeline` itself never re-raises. -/
inductive RunOutcome
  | ok (σ : RunState)
  | validationLogged (msgs : List String) (σ : RunState)
  | unexpectedLogged (msg : String) (σ : RunState)
deriving DecidableEq, Repr

/-- The exception handling of `execute_pipeline`: `ValidationException` is
logged as a batch of messages, anything else as an unexpected runtime
exception. -/
def catchOutcome : Except (PyErr × RunState) RunState → RunOutcome
  | .ok σ => .ok σ
  | .error (.validationExc msgs, σ) => .validationLogged msgs σ
  | .error (.runtimeExc m, σ) => .unexpectedLogged m σ
  | .error (.exc m, σ) => .unexpectedLogged m σ

/-- The body of `CexExecutor.execute_pipeline`: construct the
`NamespaceExecutor` — whose `__init__` runs `NamespaceValidator.validate`
(per-node checks only) and builds the graph — then `prepare()` and
`execute()`.  The `NamespaceExecutor.validate` method (the DAG check and
the input-dependency pass) is NEVER invoked on this path.  `prepare` and
`execute` each topologically sort the graph; the sort is performed once
here since it is deterministic, and on a cyclic graph it raises
`NetworkXUnfeasible` inside `prepare`, before any node state is assigned
or any node executes. -/
def runPipelineSteps (env : Env) (ns : Namespace) (nodes : List Node) (σ : RunState) :
    Except (PyErr × RunState) RunState :=
  match namespaceValidate ns nodes with
  | some msgs => .error (.validationExc msgs, σ)
  | none =>
    let σ0 := resetRun σ nodes
    match topological_sort nodes with
    | .error e => .error (e, σ0)
    | .ok sorted =>
      match prepGo env sorted [] σ0 with
      | .error e => .error e
      | .ok σp => execGo env sorted [] σp

/-- `CexExecutor.execute_pipeline(namespace)`. -/
def execute_pipeline (env : Env) (ns : Namespace) (nodes : List Node) (σ : RunState) :
    RunOutcome :=
  catchOutcome (runPipelineSteps env ns nodes σ)

/-! # Concrete fixtures for the claims -/

deriving instance DecidableEq for Except

/-- A minimal environment: engine root at the working directory, namespace
path `ns`, no registered serializers. -/
def envT : Env := { rootPath := [], nsPath := ["ns"], nsSerializers := [], engineSerializers := [] }

/-- The empty initial state: empty filesystem, empty store. -/
def sigmaEmpty : RunState := { fs := [], meta := [], states := [], invoked := [] }

/-- A required input named `x` of type `int`. -/
def c4R : DataInformation := DataInformation.init 0 "x" (some "int")

/-- First available candidate: name `x`, type `int` (full positive match). -/
def c4A1 : DataInformation := DataInformation.init 1 "x" (some "int")

/-- Second available candidate, tying with the first at full score. -/
def c4A2 : DataInformation := DataInformation.init 2 "x" (some "int")

/-- A required input: parameter `y` of type `int`. -/
def c5R : DataInformation := DataInformation.init 0 "y" (some "int")

/-- An available input whose name equals the bare parameter name `y`. -/
def c5A : DataInformation := DataInformation.init 1 "y" (some "int")

/-- A node declaring no aliases at all. -/
def c5NodeNoAlias : Node :=
  { runtime_id := 5
    name := "NA"
    function :=
      { module := "m"
        qualname := "na"
        params := [("y", some "int")]
        ret := none
        impl := fun _ => { ty := "int", payload := 0 } }
    is_cached := false
    input_directory_name := none
    input_aliases := none
    input_serializers := none
    output_serializer := none
    outputs := none
    output_directory := "NA"
    subsequent_nodes := [] }

/-- The engine with nothing registered in the global type map. -/
def c8Env : Env := { rootPath := [], nsPath := [], nsSerializers := [], engineSerializers := [] }

/-- A JSON file on disk at `input/data.json`. -/
def c8Path : FsPath := { dirs := ["input"], stem := "data", suffix := ".json" }

/-- The filesystem containing that file. -/
def c8Fs : FileSystem := [(c8Path, { ty := "dict", payload := 1 })]

/-- A file-sourced DataInfo: unknown type, path set to the JSON file. -/
def c8Data : DataInformation := DataInformation.init 0 "data" none (some c8Path)

/-- A sink node with two parameters `a` and `b`, both aliased to `x`. -/
def c9Node : Node :=
  { runtime_id := 2
    name := "B"
    function :=
      { module := "m"
        qualname := "g"
        params := [("a", some "int"), ("b", some "int")]
        ret := none
        impl := fun _ => { ty := "int", payload := 0 } }
    is_cached := false
    input_directory_name := none
    input_aliases := some [("a", some (.one "x")), ("b", some (.one "x"))]
    input_serializers := none
    output_serializer := none
    outputs := none
    output_directory := "B"
    subsequent_nodes := [] }

/-- A single producing DataInfo named `x` with uuid token `7`. -/
def c9X : DataInformation := DataInformation.init 7 "x" (some "int")

/-- A node whose persistent hash keys the stored record. -/
def c3Node : Node :=
  { runtime_id := 1
    name := "A"
    function :=
      { module := "m"
        qualname := "f"
        params := [("x", some "int")]
        ret := some "int"
        impl := fun _ => { ty := "int", payload := 0 } }
    is_cached := true
    input_directory_name := none
    input_aliases := none
    input_serializers := none
    output_serializer := none
    outputs := some "out"
    output_directory := "A"
    subsequent_nodes := [] }

/-- A namespace record holding one intact node record whose hash is the
live node's persistent hash (with a stored input hash worth preserving). -/
def c3NsMeta : NamespaceMeta :=
  { name := "NS"
    nodes := [some { hash := c3Node.get_persistent_hash, input_hashes := [("x", some 5)] }] }

/-- A stored record for the C6 witness. -/
def c6Meta : NodeMeta := { hash := 0, input_hashes := [("data", some 5)] }

/-- A missing file for the C6 witness. -/
def c6Missing : FsPath := { dirs := [], stem := "gone", suffix := ".json" }

/-- First C7 witness node. -/
def c7N1 : Node :=
  { runtime_id := 101
    name := "S"
    function :=
      { module := "pkg"
        qualname := "compute"
        params := [("a", some "int"), ("b", some "str")]
        ret := some "int"
        impl := fun _ => { ty := "int", payload := 0 } }
    is_cached := true
    input_directory_name := some "in"
    input_aliases := some [("b", some (.one "q")), ("a", some (.one "p"))]
    input_serializers := none
    output_serializer := none
    outputs := some "out"
    output_directory := "S"
    subsequent_nodes := [] }

/-- Second C7 witness node: same stable attributes (aliases permuted),
different runtime id, successors, serializers, return annotation and
function body. -/
def c7N2 : Node :=
  { runtime_id := 202
    name := "S"
    function :=
      { module := "pkg"
        qualname := "compute"
        params := [("a", some "int"), ("b", some "str")]
        ret := some "float"
        impl := fun _ => { ty := "float", payload := 9 } }
    is_cached := true
    input_directory_name := some "in"
    input_aliases := some [("a", some (.one "p")), ("b", some (.one "q"))]
    input_serializers := some (.single .json)
    output_serializer := some .yaml
    outputs := some "out"
    output_directory := "S"
    subsequent_nodes := [55, 66] }

/-- The zero-parameter cached node of the C10 witness (a cached node with
no declared output, no input directory, prepared on a fresh store). -/
def c10Node : Node :=
  { runtime_id := 3
    name := "Z"
    function :=
      { module := "m"
        qualname := "z"
        params := []
        ret := none
        impl := fun _ => { ty := "int", payload := 0 } }
    is_cached := true
    input_directory_name := none
    input_aliases := none
    input_serializers := none
    output_serializer := none
    outputs := none
    output_directory := "Z"
    subsequent_nodes := [] }

/-- The prepared state of the C10 witness run. -/
def c10SigmaQ : RunState := { fs := [], meta := [], states := [(3, .SKIPPED)], invoked := [] }

/-- A cached producer-consumer node template for the C2 cycle. -/
def c2Func : Func :=
  { module := "m"
    qualname := "c"
    params := [("u", some "int")]
    ret := some "int"
    impl := fun _ => { ty := "int", payload := 0 } }

/-- First node of the two-cycle. -/
def c2NodeA : Node :=
  { runtime_id := 10
    name := "CA"
    function := c2Func
    is_cached := true
    input_directory_name := none
    input_aliases := none
    input_serializers := none
    output_serializer := some .json
    outputs := some "u"
    output_directory := "CA"
    subsequent_nodes := [11] }

/-- Second node of the two-cycle, feeding back into the first. -/
def c2NodeB : Node :=
  { runtime_id := 11
    name := "CB"
    function := c2Func
    is_cached := true
    input_directory_name := none
    input_aliases := none
    input_serializers := none
    output_serializer := some .json
    outputs := some "u"
    output_directory := "CB"
    subsequent_nodes := [10] }

/-- The namespace holding the cyclic graph. -/
def c2Ns : Namespace :=
  { name := "NSC", path := ["NSC"], root_nodes := [10], serializers_by_type := [] }

/-! ## C1 apparatus -/

/-- The output path a node declares, independently of the filesystem (the
extension-fallback branch of serializer resolution is unreachable for
output envelopes, whose `path` is not yet set). -/
def outputPathOf (env : Env) (n : Node) : Option FsPath :=
  match n.get_output_information env [] with
  | .ok (some o) => o.path
  | _ => none

/-- Correspondence between a first-run inbox envelope and the matching
second-run envelope: same name and type, equal hashes, and the hash is
present. -/
def RelD (d1 d2 : DataInformation) : Prop :=
  d1.name = d2.name ∧ d1.type = d2.type ∧ d2.hash = d1.hash ∧ ∃ h, d1.hash = some h

/-- Pointwise correspondence of candidate lists. -/
def RelL (l1 l2 : List DataInformation) : Prop :=
  List.Forall₂ RelD l1 l2

/-- Correspondence of resolved-input maps: equal keys, related values. -/
def RelR (r1 r2 : List (String × DataInformation)) : Prop :=
  List.Forall₂ (fun a b => a.1 = b.1 ∧ RelD a.2 b.2) r1 r2

/-- Correspondence of the inbox maps: equal keys in equal order, related
accumulated lists. -/
def RelI (I1 I2 : Inbox) : Prop :=
  List.Forall₂ (fun e1 e2 => e1.1 = e2.1 ∧ RelL e1.2 e2.2) I1 I2

/-- The non-cached node of the C1 counterexample: its user function runs
on every invocation of the namespace. -/
def c1NonCached : Node :=
  { runtime_id := 20
    name := "NC"
    function :=
      { module := "m"
        qualname := "nc"
        params := []
        ret := none
        impl := fun _ => { ty := "int", payload := 1 } }
    is_cached := false
    input_directory_name := none
    input_aliases := none
    input_serializers := none
    output_serializer := none
    outputs := none
    output_directory := "NC"
    subsequent_nodes := [] }

/-- The cached node of the C1 witness: one file-driven input (annotated
`None`, matching the untyped file envelope), JSON serializers bound on the
node, cached output `out`. -/
def c1W : Node :=
  { runtime_id := 30
    name := "W"
    function :=
      { module := "m"
        qualname := "w"
        params := [("data", none)]
        ret := some "int"
        impl := fun _ => { ty := "int", payload := 42 } }
    is_cached := true
    input_directory_name := some "input"
    input_aliases := none
    input_serializers := some (.single .json)
    output_serializer := some .json
    outputs := some "out"
    output_directory := "W"
    subsequent_nodes := [] }

/-- The user-placed input file of the C1 witness. -/
def c1WIn : FsPath := { dirs := ["ns", "input"], stem := "data", suffix := ".json" }

/-- The initial state of the C1 witness: only the input file exists. -/
def c1WSigma : RunState :=
  { fs := [(c1WIn, { ty := "dict", payload := 9 })], meta := [], states := [], invoked := [] }

/-- The prepared state of the first witness run. -/
def c1WSigmaP : RunState :=
  (prepGo envT [c1W] [] (resetRun c1WSigma [c1W])).toOption.getD sigmaEmpty

/-- The final state of the first witness run. -/
def c1WSigma1 : RunState :=
  (execGo envT [c1W] [] c1WSigmaP).toOption.getD sigmaEmpty

/-! # Theorems -/

/-! ## Association-list lemmas -/

theorem alookup_ainsert_self {κ α : Type} [BEq κ] [LawfulBEq κ] (k : κ) (v : α) :
    ∀ l : List (κ × α), alookup k (ainsert k v l) = some v := by
  intro l
  induction l with
  | nil => simp [ainsert, alookup]
  | cons e es ih =>
    by_cases h : e.1 == k
    · simp [ainsert, h, alookup]
    · simp [ainsert, h, alookup, ih]

theorem alookup_ainsert_ne {κ α : Type} [BEq κ] [LawfulBEq κ] (k k' : κ) (v : α)
    (h : k' ≠ k) : ∀ l : List (κ × α), alookup k (ainsert k' v l) = alookup k l := by
  intro l
  induction l with
  | nil =>
    simp [ainsert, alookup]
    intro hk
    exact absurd hk h
  | cons e es ih =>
    by_cases he : e.1 == k'
    · have he' : e.1 = k' := by simpa using he
      have h1 : (k' == k) = false := by simpa using h
      have h2 : (e.1 == k) = false := by rw [he']; simpa using h
      simp [ainsert, he, alookup, h1, h2]
    · simp [ainsert, he, alookup, ih]

/-! ## C4 -/

/-- C4: the claim says the runtime resolver scores candidates
(name+type > name-only > type-only > none) and raises `AmbiguousInput` on
any tie at a positive score.  In the code, `get_best_match` never updates
`best_score` after its initialisation to NONE, so the duplicate check
`best_score == match and best_score > NONE` can never fire: the scorer
never raises, on any input, and a full-score tie silently returns the LAST
positively scoring candidate.  (Independently, the runtime resolver
`resolve_node_inputs` never calls `get_best_match`; it filters with the
exact `match_static` predicate.) -/
theorem C4_best_match_tie_never_raises :
    (∀ (self : DataInformation) (others : List DataInformation) (aliases : List String)
        (msg : String), self.get_best_match others aliases ≠ .error msg)
    ∧ c4R.get_best_match [c4A1, c4A2] [] = .ok (some c4A2) := by
  constructor
  · intro self others aliases msg
    suffices h : ∀ (l : List DataInformation) (bv : Option DataInformation),
        DataInformation.get_best_match_go self aliases .noMatch bv l ≠ .error msg by
      exact h others none
    intro l
    induction l with
    | nil => intro bv; simp [DataInformation.get_best_match_go]
    | cons o rest ih =>
      intro bv
      have hcond : (DataMatch.noMatch == self.get_match o aliases
          && decide (DataMatch.score .noMatch > DataMatch.score .noMatch)) = false := by
        simp [DataMatch.score]
      simp only [DataInformation.get_best_match_go, hcond, Bool.false_eq_true, if_false]
      exact ih _
  · decide

/-! ## C5 -/

/-- C5 counterexample: the claim says that with an explicit alias list the
aliases REPLACE the parameter name, so a candidate named by the bare
parameter name but absent from the alias list does not name-match.  In the
code, `match_static` accepts `other.name == self.name` in addition to the
aliases: the candidate `y` fully matches the parameter `y` even though the
alias list is `[result]` and does not contain `y`. -/
theorem C5_counterexample :
    c5R.match_static c5A ["result"] = true
    ∧ (["result"] : List String).contains c5A.name = false := by
  decide

/-- C5 (amended): aliases EXTEND rather than replace the parameter name:
a candidate whose name equals the bare parameter name name-matches (and
with equal types fully matches) regardless of the declared alias list;
when no aliases are declared, `get_input_aliases` yields the parameter
name as the sole alias. -/
theorem C5_amended_aliases_extend :
    (∀ (r a : DataInformation) (aliases : List String),
        r.name = a.name → a.type = r.type → r.match_static a aliases = true)
    ∧ (∀ (n : Node) (pname : String), n.input_aliases = none →
        n.get_input_aliases pname = [pname]) := by
  constructor
  · intro r a aliases hname htype
    simp [DataInformation.match_static, hname, htype]
  · intro n pname hal
    simp [Node.get_input_aliases, hal]

/-- Witness for C5 (amended) at the concrete fixtures. -/
theorem C5_amended_witness :
    c5R.match_static c5A ["result"] = true
    ∧ c5NodeNoAlias.get_input_aliases "y" = ["y"] :=
  ⟨C5_amended_aliases_extend.1 c5R c5A ["result"] rfl rfl,
   C5_amended_aliases_extend.2 c5NodeNoAlias "y" rfl⟩

/-! ## C8 -/

/-- C8: the claim says a DataInfo whose type has no global binding but
whose path ends in `.json` resolves to the JSON serializer.  In the code
`CexExecutor.resolve_serializer` passes `path.suffix` — which includes the
leading dot — to `matches_file`, while `JsonSerializer.matches_file`
compares against the bare string `json` (its own `get_file_extension`
returns `.json`): the JSON serializer never matches a real suffix, no
default serializer matches `.json`, and resolution yields nothing, so the
downstream input-serializer resolution raises instead of loading. -/
theorem C8_json_suffix_never_matches :
    DataSerializer.json.matches_file ".json" = false
    ∧ DataSerializer.json.get_file_extension = ".json"
    ∧ cexResolveSerializer c8Env c8Fs c8Data = none
    ∧ (∃ msg, c5NodeNoAlias.resolve_input_serializer c8Env c8Fs c8Data = .error (.runtimeExc msg)) := by
  refine ⟨by decide, by decide, by decide, "Failed to resolve serializer for input data of node NA", by decide⟩

/-! ## C9 -/

/-- C9 counterexample: the claim says binding one producing DataInfo to two
parameters of a node fails with a `RuntimeError`.  The runtime resolver
`resolve_node_inputs` resolves each required input independently and never
consults `DataInformation.id`: the single envelope `x` is bound to both
`a` and `b` and resolution SUCCEEDS. -/
theorem C9_counterexample :
    resolve_node_inputs envT [] c9Node [c9X] = .ok [("a", c9X), ("b", c9X)] := by
  decide

/-- C9 (amended): double-binding is not detected: for any uuid token the
resolver binds the same producing envelope (same `id`) to both parameters
and returns successfully; the `id` field is never consulted. -/
theorem C9_amended_double_binding_allowed :
    ∀ i : Nat,
      resolve_node_inputs envT [] c9Node [DataInformation.init i "x" (some "int")] =
        .ok [("a", DataInformation.init i "x" (some "int")),
             ("b", DataInformation.init i "x" (some "int"))] := by
  intro i
  rfl

/-! ## C3 -/

/-- C3: the claim says `update_from(nodes)` preserves — as intact records
retrievable by hash — every entry whose persistent hash still occurs among
the live nodes.  In the code the preserved branch appends
`current_meta.update_from(node)`, and `NodeMeta.update_from` ends without a
return statement: the caller stores `None` in place of the record.  On the
failing input (a store with exactly one record whose hash matches the one
live node) the new collection is `[None]`, and the subsequent lookup by
hash raises `AttributeError` instead of returning the record. -/
theorem C3_update_from_nullifies_preserved_entries :
    c3NsMeta.update_from [c3Node] = .ok { name := "NS", nodes := [none] }
    ∧ (NamespaceMeta.mk "NS" [none]).get_node_meta c3Node.get_persistent_hash =
        .error (.exc "AttributeError: NoneType object has no attribute hash") := by
  constructor
  · decide
  · decide

/-! ## C6 -/

/-- C6: the input currency check is true iff the stored hash for the
parameter equals the fresh hash and the fresh hash is non-null; hashing a
missing file yields absent; an absent hash is never judged current.  The
check the execution layer performs for a single parameter is
`NodeMeta.is_current` on the one-entry map. -/
theorem C6_is_current_iff (m : NodeMeta) (pname : String) (h : Option Hash)
    (fs : FileSystem) (p : FsPath) (hmiss : fsLookup fs p = none) :
    (m.is_current [(pname, h)] = true ↔
      ∃ v, h = some v ∧ alookup pname m.input_hashes = some (some v))
    ∧ get_file_hash fs p = none
    ∧ m.is_current [(pname, none)] = false := by
  refine ⟨?_, ?_, ?_⟩
  · cases h with
    | none => simp [NodeMeta.is_current]
    | some v =>
      simp only [NodeMeta.is_current, List.all_cons, List.all_nil, Bool.and_true]
      cases hl : alookup pname m.input_hashes with
      | none => simp
      | some s =>
        cases s with
        | none => simp
        | some stored =>
          simp only [beq_iff_eq, Option.some.injEq]
          constructor
          · intro hsv
            exact ⟨v, rfl, hsv⟩
          · rintro ⟨v0, hv0, hst⟩
            rw [hv0, hst]
  · simp [get_file_hash, hmiss]
  · simp [NodeMeta.is_current]

/-- Witness for C6 at a concrete record, parameter and missing file. -/
theorem C6_witness :
    (c6Meta.is_current [("data", some 5)] = true ↔
      ∃ v, (some 5 : Option Hash) = some v ∧ alookup "data" c6Meta.input_hashes = some (some v))
    ∧ get_file_hash [] c6Missing = none
    ∧ c6Meta.is_current [("data", none)] = false :=
  C6_is_current_iff c6Meta "data" (some 5) [] c6Missing rfl

/-! ## C7 -/

/-- C7: `persistent_hash` is a pure function of the documented stable
declarative attributes: two nodes agreeing on name, cached flag, qualified
function name, output name, input directory, output directory and the
(key-sorted) input aliases have equal persistent hashes, whatever their
runtime ids, successor lists, serializer bindings, return annotations or
function bodies. -/
theorem C7_persistent_hash_stable (n1 n2 : Node)
    (hname : n1.name = n2.name) (hcache : n1.is_cached = n2.is_cached)
    (hmod : n1.function.module = n2.function.module)
    (hqual : n1.function.qualname = n2.function.qualname)
    (hout : n1.outputs = n2.outputs)
    (hindir : n1.input_directory_name = n2.input_directory_name)
    (houtdir : n1.output_directory = n2.output_directory)
    (hal : n1.get_stable_input_aliases = n2.get_stable_input_aliases) :
    n1.get_persistent_hash = n2.get_persistent_hash := by
  unfold Node.get_persistent_hash
  rw [hname, hcache, hmod, hqual, hout, hindir, houtdir, hal]

/-- Witness for C7: the two nodes differ in runtime id, successor list and
serializer bindings yet share the persistent hash. -/
theorem C7_witness :
    c7N1.get_persistent_hash = c7N2.get_persistent_hash
    ∧ c7N1.runtime_id ≠ c7N2.runtime_id
    ∧ c7N1.subsequent_nodes ≠ c7N2.subsequent_nodes
    ∧ c7N1.output_serializer ≠ c7N2.output_serializer :=
  ⟨C7_persistent_hash_stable c7N1 c7N2 rfl rfl rfl rfl rfl rfl rfl (by decide),
   by decide, by decide, by decide⟩

/-! ## C10 -/

/-- A successful `prepStep` only reassigns the state of the node it
processes. -/
theorem prepStep_shape (env : Env) (node : Node) (inbox inbox2 : Inbox)
    (σ σ2 : RunState) (h : prepStep env node inbox σ = .ok (inbox2, σ2)) :
    ∃ st : ExecutionState, σ2 = setState σ node.runtime_id st := by
  simp only [prepStep] at h
  split at h
  · exact Except.noConfusion h
  · split at h
    · simp only [Except.ok.injEq, Prod.mk.injEq] at h
      exact ⟨_, h.2.symm⟩
    · split at h
      · exact Except.noConfusion h
      · split at h
        · exact Except.noConfusion h
        · simp only [Except.ok.injEq, Prod.mk.injEq] at h
          exact ⟨_, h.2.symm⟩

/-- Other executors keep their state across a successful `prepStep`. -/
theorem prepStep_states_other (env : Env) (node : Node) (inbox inbox2 : Inbox)
    (σ σ2 : RunState) (k : Nat) (hk : node.runtime_id ≠ k)
    (h : prepStep env node inbox σ = .ok (inbox2, σ2)) :
    alookup k σ2.states = alookup k σ.states := by
  obtain ⟨st, rfl⟩ := prepStep_shape env node inbox inbox2 σ σ2 h
  simp [setState, alookup_ainsert_ne k node.runtime_id st hk]

/-- Nodes outside the processed list keep their state across `prepGo`. -/
theorem prepGo_states_other (env : Env) (k : Nat) :
    ∀ (L : List Node) (I : Inbox) (σ σq : RunState),
      (∀ n ∈ L, n.runtime_id ≠ k) → prepGo env L I σ = .ok σq →
      alookup k σq.states = alookup k σ.states := by
  intro L
  induction L with
  | nil =>
    intro I σ σq _ h
    simp only [prepGo, Except.ok.injEq] at h
    rw [← h]
  | cons nd rest ih =>
    intro I σ σq hne h
    simp only [prepGo] at h
    split at h
    · exact Except.noConfusion h
    · rename_i inbox2 σ2 heq
      have h1 := prepStep_states_other env nd I inbox2 σ σ2 k (hne nd (by simp)) heq
      have h2 := ih inbox2 σ2 σq (fun n hn => hne n (by simp [hn])) h
      rw [h2, h1]

/-- For a cached node whose function takes no parameters, a successful
`prepStep` assigns exactly `SKIPPED` (the resolver returns the empty map
and the currency loop never downgrades nor touches the store). -/
theorem prepStep_zero_param (env : Env) (node : Node) (inbox inbox2 : Inbox)
    (σ σ2 : RunState) (hc : node.is_cached = true) (hp : node.function.params = [])
    (h : prepStep env node inbox σ = .ok (inbox2, σ2)) :
    σ2 = setState σ node.runtime_id .SKIPPED := by
  have hres : ∀ avail, resolve_node_inputs env σ.fs node avail = .ok [] := by
    intro avail
    simp [resolve_node_inputs, Node.get_required_inputs, hp, resolveInputsGo]
  simp only [prepStep, hc, Bool.not_true, Bool.false_eq_true, if_false, hres,
    computeStateGo] at h
  split at h
  · exact Except.noConfusion h
  · simp only [Except.ok.injEq, Prod.mk.injEq] at h
    exact h.2.symm

/-- C10: in the preparation phase every cached node with a zero-parameter
function is assigned `SKIPPED` — on every run, including the very first
with no output file and no stored metadata — because the currency loop
over the empty resolved-input map never executes (so it neither downgrades
to `READY` nor consults the metadata store). -/
theorem C10_zero_param_cached_skipped (env : Env) (L : List Node) (σ σq : RunState)
    (n : Node) (hids : (L.map Node.runtime_id).Nodup) (hmem : n ∈ L)
    (hc : n.is_cached = true) (hp : n.function.params = [])
    (hrun : prepGo env L [] σ = .ok σq) :
    getState σq n.runtime_id = .SKIPPED := by
  suffices haux : ∀ (M : List Node) (I : Inbox) (τ τq : RunState),
      (M.map Node.runtime_id).Nodup → n ∈ M → prepGo env M I τ = .ok τq →
      getState τq n.runtime_id = .SKIPPED by
    exact haux L [] σ σq hids hmem hrun
  intro M
  induction M with
  | nil => intro I τ τq _ hm _; cases hm
  | cons nd rest ih =>
    intro I τ τq hnd hm hgo
    simp only [prepGo] at hgo
    split at hgo
    · exact Except.noConfusion hgo
    · rename_i inbox2 σ2 heq
      simp only [List.map_cons, List.nodup_cons] at hnd
      rcases List.mem_cons.mp hm with heqn | hmem2
      · subst heqn
        have hσ2 := prepStep_zero_param env n I inbox2 τ σ2 hc hp heq
        have hid : ∀ m ∈ rest, m.runtime_id ≠ n.runtime_id := by
          intro m hmrest hcontra
          exact hnd.1 (by rw [← hcontra]; exact List.mem_map_of_mem Node.runtime_id hmrest)
        have hpres := prepGo_states_other env n.runtime_id rest inbox2 σ2 τq hid hgo
        rw [getState, hpres, hσ2]
        simp [setState, alookup_ainsert_self]
      · exact ih inbox2 σ2 τq hnd.2 hmem2 hgo

/-- Witness for C10: preparing the singleton graph on the very first run
(empty filesystem, empty store) assigns `SKIPPED`. -/
theorem C10_witness :
    prepGo envT [c10Node] [] sigmaEmpty = .ok c10SigmaQ
    ∧ getState c10SigmaQ c10Node.runtime_id = .SKIPPED :=
  ⟨by decide,
   C10_zero_param_cached_skipped envT [c10Node] sigmaEmpty c10SigmaQ c10Node
     (by simp) (List.mem_singleton_self c10Node) rfl rfl (by decide)⟩

/-! ## C2 -/

/-- C2: the claim says every run of a cyclic namespace raises
`ValidationFailure` before any node executes.  In the code the DAG check
lives in `NamespaceExecutor.validate`, but `execute_pipeline` never calls
that method: the cycle instead blows up the library topological sort inside
the preparation phase, which is caught and logged as an UNEXPECTED
exception, not as a validation failure (no node executes either way).  The
dead `validate` method would indeed have produced the claimed
`ValidationException`. -/
theorem C2_cycle_not_validation_failure :
    execute_pipeline envT c2Ns [c2NodeA, c2NodeB] sigmaEmpty =
      .unexpectedLogged "NetworkXUnfeasible: graph contains a cycle"
        (resetRun sigmaEmpty [c2NodeA, c2NodeB])
    ∧ (resetRun sigmaEmpty [c2NodeA, c2NodeB]).invoked = []
    ∧ (∀ (msgs : List String) (τ : RunState),
        execute_pipeline envT c2Ns [c2NodeA, c2NodeB] sigmaEmpty ≠ .validationLogged msgs τ)
    ∧ nsExecValidate envT [] c2Ns [c2NodeA, c2NodeB] =
        .error (.validationExc ["Graph of namespace NSC is not a DAG"]) := by
  have hmain : execute_pipeline envT c2Ns [c2NodeA, c2NodeB] sigmaEmpty =
      .unexpectedLogged "NetworkXUnfeasible: graph contains a cycle"
        (resetRun sigmaEmpty [c2NodeA, c2NodeB]) := by decide
  refine ⟨hmain, by decide, ?_, by decide⟩
  intro msgs τ hne
  rw [hmain] at hne
  exact RunOutcome.noConfusion hne

/-! ## C1: groundwork lemmas -/

theorem alookup_ainsert_isSome {κ α : Type} [BEq κ] [LawfulBEq κ] (k k' : κ) (v : α)
    (l : List (κ × α)) (h : (alookup k l).isSome) : (alookup k (ainsert k' v l)).isSome := by
  by_cases he : k' = k
  · subst he; rw [alookup_ainsert_self]; rfl
  · rw [alookup_ainsert_ne k k' v he]; exact h

theorem fsLookup_fsWrite_self (fs : FileSystem) (p : FsPath) (v : Value) :
    fsLookup (fsWrite fs p v) p = some v :=
  alookup_ainsert_self p v fs

theorem fsLookup_fsWrite_ne (fs : FileSystem) (p q : FsPath) (v : Value) (h : p ≠ q) :
    fsLookup (fsWrite fs p v) q = fsLookup fs q :=
  alookup_ainsert_ne q p v h fs

theorem get_file_hash_fsWrite_self (fs : FileSystem) (p : FsPath) (v : Value) :
    get_file_hash (fsWrite fs p v) p = some (sha256 v) := by
  rw [get_file_hash, fsLookup_fsWrite_self]

theorem filterDir_fsWrite_ne (fs : FileSystem) (p : FsPath) (v : Value) (D : List String)
    (h : p.dirs ≠ D) : filterDir (fsWrite fs p v) D = filterDir fs D := by
  induction fs with
  | nil =>
    simp only [fsWrite, ainsert, filterDir, List.filter]
    have : (p.dirs == D) = false := by simpa using h
    simp [this]
  | cons e es ih =>
    by_cases he : e.1 == p
    · have he' : e.1 = p := by simpa using he
      have h1 : (p.dirs == D) = false := by simpa using h
      have h2 : (e.1.dirs == D) = false := by rw [he']; exact h1
      simp [fsWrite, ainsert, he, filterDir, List.filter, h1, h2]
    · simp only [fsWrite, ainsert, he, if_false]
      simp only [filterDir, List.filter] at ih ⊢
      cases hd : e.1.dirs == D
      · simpa [hd] using ih
      · simpa [hd] using congrArg (e :: ·) ih

theorem alookup_filterDir (fs : FileSystem) (D : List String) (p : FsPath)
    (h : p.dirs = D) : alookup p (filterDir fs D) = alookup p fs := by
  induction fs with
  | nil => rfl
  | cons e es ih =>
    by_cases he : e.1 == p
    · have he' : e.1 = p := by simpa using he
      have hd : (e.1.dirs == D) = true := by rw [he', h]; simp
      simp [filterDir, List.filter, hd, alookup, he] at ih ⊢
    · cases hd : e.1.dirs == D
      · simp only [filterDir, List.filter, hd] at ih ⊢
        rw [alookup, if_neg (by simpa using he)] at *
        exact ih
      · simp only [filterDir, List.filter, hd] at ih ⊢
        rw [alookup, alookup, if_neg (by simpa using he), if_neg (by simpa using he)]
        simpa [filterDir] using ih

theorem mem_lookup_isSome (fs : FileSystem) (e : FsPath × Value) (h : e ∈ fs) :
    (alookup e.1 fs).isSome := by
  induction fs with
  | nil => cases h
  | cons x xs ih =>
    rcases List.mem_cons.mp h with rfl | hmem
    · simp [alookup]
    · by_cases hx : x.1 == e.1
      · simp [alookup, hx]
      · simp [alookup, hx]; exact ih hmem

theorem mem_filterDir_sub (fs : FileSystem) (D : List String) (e : FsPath × Value)
    (h : e ∈ filterDir fs D) : e ∈ fs :=
  List.mem_of_mem_filter h

theorem mem_filterDir_dirs (fs : FileSystem) (D : List String) (e : FsPath × Value)
    (h : e ∈ filterDir fs D) : e.1.dirs = D := by
  have := List.of_mem_filter h
  simpa using this

/-! ### Forall₂ helpers -/

theorem relL_append {l1 l2 u1 u2 : List DataInformation}
    (h1 : RelL l1 l2) (h2 : RelL u1 u2) : RelL (l1 ++ u1) (l2 ++ u2) := by
  unfold RelL at *
  induction h1 with
  | nil => exact h2
  | cons hd _ ih => exact List.Forall₂.cons hd ih

theorem relR_append {r1 r2 s1 s2 : List (String × DataInformation)}
    (h1 : RelR r1 r2) (h2 : RelR s1 s2) : RelR (r1 ++ s1) (r2 ++ s2) := by
  unfold RelR at *
  induction h1 with
  | nil => exact h2
  | cons hd _ ih => exact List.Forall₂.cons hd ih

theorem relR_mem_right {r1 r2 : List (String × DataInformation)} (h : RelR r1 r2) :
    ∀ kv2 ∈ r2, ∃ kv1 ∈ r1, kv1.1 = kv2.1 ∧ RelD kv1.2 kv2.2 := by
  unfold RelR at h
  induction h with
  | nil => intro kv2 hm; cases hm
  | @cons a b l1 l2 hd htl ih =>
    intro kv2 hm
    rcases List.mem_cons.mp hm with rfl | hm2
    · exact ⟨a, List.mem_cons_self a l1, hd⟩
    · obtain ⟨kv1, hkv1, hrel⟩ := ih kv2 hm2
      exact ⟨kv1, List.mem_cons_of_mem a hkv1, hrel⟩

theorem relL_refl_of_hash_some (l : List DataInformation)
    (h : ∀ d ∈ l, ∃ v, d.hash = some v) : RelL l l := by
  induction l with
  | nil => exact List.Forall₂.nil
  | cons d ds ih =>
    refine List.Forall₂.cons ⟨rfl, rfl, rfl, h d (List.mem_cons_self d ds)⟩ ?_
    exact ih (fun x hx => h x (List.mem_cons_of_mem d hx))

/-! ### Filesystem independence of output information -/

theorem nsResolveSerializer_fs_indep (env : Env) (fs fs' : FileSystem)
    (info : DataInformation) (hp : info.path = none) :
    nsResolveSerializer env fs info = nsResolveSerializer env fs' info := by
  unfold nsResolveSerializer cexResolveSerializer
  cases hns : lookupTy env.nsSerializers info.type
  · cases heng : lookupTy env.engineSerializers info.type
    · rw [hp]
    · rfl
  · rfl

theorem resolve_output_serializer_fs_indep (n : Node) (env : Env) (fs fs' : FileSystem)
    (info : DataInformation) (hp : info.path = none) :
    n.resolve_output_serializer env fs info = n.resolve_output_serializer env fs' info := by
  unfold Node.resolve_output_serializer
  cases ho : n.output_serializer
  · rw [nsResolveSerializer_fs_indep env fs fs' info hp]
  · rfl

theorem get_output_information_fs_indep (n : Node) (env : Env) (fs fs' : FileSystem) :
    n.get_output_information env fs = n.get_output_information env fs' := by
  unfold Node.get_output_information
  cases hr : n.function.ret with
  | none => rfl
  | some retTy =>
    cases ho : n.output_name with
    | none => rfl
    | some oname =>
      simp only
      rw [resolve_output_serializer_fs_indep n env fs fs'
        (DataInformation.init 0 oname (some retTy)) rfl]

/-- The path recorded in a successfully computed output envelope is the
node's declared output path. -/
theorem outputPathOf_eq (n : Node) (env : Env) (fs : FileSystem) (out : DataInformation)
    (h : n.get_output_information env fs = .ok (some out)) :
    outputPathOf env n = out.path := by
  unfold outputPathOf
  rw [get_output_information_fs_indep n env [] fs, h]

/-! ### Inbox correspondence lemmas -/

theorem relI_alookup {I1 I2 : Inbox} (h : RelI I1 I2) (k : Nat) :
    (alookup k I1 = none ∧ alookup k I2 = none)
    ∨ (∃ v1 v2, alookup k I1 = some v1 ∧ alookup k I2 = some v2 ∧ RelL v1 v2) := by
  unfold RelI at h
  induction h with
  | nil => exact Or.inl ⟨rfl, rfl⟩
  | @cons a b l1 l2 hd htl ih =>
    obtain ⟨hk, hv⟩ := hd
    by_cases hak : a.1 == k
    · have hbk : (b.1 == k) = true := by rw [← hk]; exact hak
      exact Or.inr ⟨a.2, b.2, by simp [alookup, hak], by simp [alookup, hbk], hv⟩
    · have hbk : (b.1 == k) = false := by
        rw [← hk]; simpa using hak
      rcases ih with ⟨h1, h2⟩ | ⟨v1, v2, h1, h2, hrel⟩
      · exact Or.inl ⟨by simp [alookup, hak, h1], by simp [alookup, hbk, h2]⟩
      · exact Or.inr ⟨v1, v2, by simp [alookup, hak, h1], by simp [alookup, hbk, h2], hrel⟩

theorem relI_eraseKey {I1 I2 : Inbox} (h : RelI I1 I2) (k : Nat) :
    RelI (eraseKey k I1) (eraseKey k I2) := by
  unfold RelI at *
  induction h with
  | nil => exact List.Forall₂.nil
  | @cons a b l1 l2 hd htl ih =>
    obtain ⟨hk, hv⟩ := hd
    by_cases hak : a.1 == k
    · have hbk : (b.1 == k) = true := by rw [← hk]; exact hak
      simpa [eraseKey, hak, hbk] using htl
    · have hbk : (b.1 == k) = false := by rw [← hk]; simpa using hak
      simp only [eraseKey, hak, hbk, if_false]
      exact List.Forall₂.cons ⟨hk, hv⟩ ih

theorem relI_pop {I1 I2 : Inbox} (h : RelI I1 I2) (k : Nat) :
    RelL (popOrDefault k I1).1 (popOrDefault k I2).1
    ∧ RelI (popOrDefault k I1).2 (popOrDefault k I2).2 := by
  unfold popOrDefault
  rcases relI_alookup h k with ⟨h1, h2⟩ | ⟨v1, v2, h1, h2, hrel⟩
  · rw [h1, h2]; exact ⟨List.Forall₂.nil, h⟩
  · rw [h1, h2]; exact ⟨hrel, relI_eraseKey h k⟩

theorem relI_appendTo {I1 I2 : Inbox} (h : RelI I1 I2) (k : Nat)
    {d1 d2 : DataInformation} (hd : RelD d1 d2) :
    RelI (appendTo I1 k d1) (appendTo I2 k d2) := by
  unfold RelI at *
  induction h with
  | nil =>
    exact List.Forall₂.cons ⟨rfl, List.Forall₂.cons hd List.Forall₂.nil⟩ List.Forall₂.nil
  | @cons a b l1 l2 hhd htl ih =>
    obtain ⟨hk, hv⟩ := hhd
    by_cases hak : a.1 == k
    · have hbk : (b.1 == k) = true := by rw [← hk]; exact hak
      simp only [appendTo, hak, hbk, if_true]
      exact List.Forall₂.cons ⟨hk, relL_append hv (List.Forall₂.cons hd List.Forall₂.nil)⟩ htl
    · have hbk : (b.1 == k) = false := by rw [← hk]; simpa using hak
      simp only [appendTo, hak, hbk, if_false]
      exact List.Forall₂.cons ⟨hk, hv⟩ ih

theorem relI_append_multiple {I1 I2 : Inbox} (h : RelI I1 I2) (ks : List Nat)
    {d1 d2 : DataInformation} (hd : RelD d1 d2) :
    RelI (append_multiple I1 ks d1) (append_multiple I2 ks d2) := by
  induction ks generalizing I1 I2 with
  | nil => exact h
  | cons k ks ih => exact ih (relI_appendTo h k hd)

/-- The conditional enqueue of `prepare_node_states` equals the
unconditional one (with no successors nothing is appended either way). -/
theorem append_if_eq (I : Inbox) (ks : List Nat) (d : DataInformation) :
    (if ks.length > 0 then append_multiple I ks d else I) = append_multiple I ks d := by
  cases ks with
  | nil => simp [append_multiple]
  | cons k ks => simp [append_multiple]

theorem alookup_appendTo_ne (I : Inbox) (k k' : Nat) (d : DataInformation) (h : k' ≠ k) :
    alookup k (appendTo I k' d) = alookup k I := by
  induction I with
  | nil =>
    have : (k' == k) = false := by simpa using h
    simp [appendTo, alookup, this]
  | cons e es ih =>
    by_cases he : e.1 == k'
    · have he' : e.1 = k' := by simpa using he
      have h2 : (e.1 == k) = false := by rw [he']; simpa using h
      simp [appendTo, he, alookup, h2]
    · simp only [appendTo, he, if_false]
      by_cases hek : e.1 == k
      · simp [alookup, hek]
      · simp [alookup, hek, ih]

theorem eraseKey_appendTo_ne (I : Inbox) (k k' : Nat) (d : DataInformation) (h : k' ≠ k) :
    eraseKey k (appendTo I k' d) = appendTo (eraseKey k I) k' d := by
  induction I with
  | nil =>
    have : (k' == k) = false := by simpa using h
    simp [appendTo, eraseKey, this]
  | cons e es ih =>
    by_cases he : e.1 == k'
    · have he' : e.1 = k' := by simpa using he
      have h2 : (e.1 == k) = false := by rw [he']; simpa using h
      simp [appendTo, he, eraseKey, h2]
    · simp only [appendTo, he, if_false]
      by_cases hek : e.1 == k
      · simp [eraseKey, hek, appendTo, he]
      · simp [eraseKey, hek, ih, appendTo, he]

theorem popOrDefault_appendTo_ne (I : Inbox) (k k' : Nat) (d : DataInformation) (h : k' ≠ k) :
    popOrDefault k (appendTo I k' d) =
      ((popOrDefault k I).1, appendTo (popOrDefault k I).2 k' d) := by
  unfold popOrDefault
  rw [alookup_appendTo_ne I k k' d h]
  cases hl : alookup k I with
  | none => rfl
  | some v => simp [eraseKey_appendTo_ne I k k' d h]

theorem popOrDefault_append_multiple_ne (ks : List Nat) (I : Inbox) (k : Nat)
    (d : DataInformation) (h : k ∉ ks) :
    popOrDefault k (append_multiple I ks d) =
      ((popOrDefault k I).1, append_multiple (popOrDefault k I).2 ks d) := by
  induction ks generalizing I with
  | nil => simp [append_multiple]
  | cons k' ks ih =>
    have hk' : k' ≠ k := fun hc => h (by rw [hc]; exact List.mem_cons_self k ks)
    have hrest : k ∉ ks := fun hc => h (List.mem_cons_of_mem k' hc)
    calc popOrDefault k (append_multiple I (k' :: ks) d)
        = popOrDefault k (append_multiple (appendTo I k' d) ks d) := rfl
      _ = ((popOrDefault k (appendTo I k' d)).1,
            append_multiple (popOrDefault k (appendTo I k' d)).2 ks d) := ih _ hrest
      _ = ((popOrDefault k I).1, append_multiple (appendTo (popOrDefault k I).2 k' d) ks d) := by
            rw [popOrDefault_appendTo_ne I k k' d hk']
      _ = ((popOrDefault k I).1, append_multiple (popOrDefault k I).2 (k' :: ks) d) := rfl

/-! ### Matching and resolution correspondence -/

theorem match_static_relD (r : DataInformation) {d1 d2 : DataInformation}
    (al : List String) (h : RelD d1 d2) :
    r.match_static d1 al = r.match_static d2 al := by
  obtain ⟨hn, ht, _, _⟩ := h
  simp [DataInformation.match_static, hn, ht]

theorem filter_relL (r : DataInformation) (al : List String) {l1 l2 : List DataInformation}
    (h : RelL l1 l2) :
    RelL (l1.filter (fun i => r.match_static i al)) (l2.filter (fun i => r.match_static i al)) := by
  unfold RelL at *
  induction h with
  | nil => exact List.Forall₂.nil
  | @cons a b as bs hd htl ih =>
    have heq := match_static_relD r al hd
    simp only [List.filter_cons, ← heq]
    cases hm : r.match_static a al
    · simpa using ih
    · simpa using List.Forall₂.cons hd ih

theorem forall₂_length {α β : Type} {R : α → β → Prop} {l1 : List α} {l2 : List β}
    (h : List.Forall₂ R l1 l2) : l1.length = l2.length :=
  List.Forall₂.length_eq h

/-- If the first-run resolution over a candidate pool succeeds, the
second-run resolution over a pointwise-related pool succeeds with a
key-identical, pointwise-related resolved map. -/
theorem resolveInputsGo_rel (node : Node) {pool1 pool2 : List DataInformation}
    (hpool : RelL pool1 pool2) :
    ∀ (req : List DataInformation) (acc1 acc2 r1 : List (String × DataInformation)),
      RelR acc1 acc2 →
      resolveInputsGo node pool1 req acc1 = .ok r1 →
      ∃ r2, resolveInputsGo node pool2 req acc2 = .ok r2 ∧ RelR r1 r2 := by
  intro req
  induction req with
  | nil =>
    intro acc1 acc2 r1 hacc h
    simp only [resolveInputsGo, Except.ok.injEq] at h
    exact ⟨acc2, rfl, h ▸ hacc⟩
  | cons di rest ih =>
    intro acc1 acc2 r1 hacc h
    simp only [resolveInputsGo] at h ⊢
    have hfil := filter_relL di (node.get_input_aliases di.name) hpool
    cases hf1 : pool1.filter (fun i => di.match_static i (node.get_input_aliases di.name)) with
    | nil =>
      rw [hf1] at h
      exact Except.noConfusion h
    | cons m1 tl1 =>
      rw [hf1] at h hfil
      obtain ⟨m2, tl2, hm, htl, hf2⟩ := List.forall₂_cons_left_iff.mp hfil
      cases tl1 with
      | nil =>
        have htl2 : tl2 = [] := List.forall₂_nil_left_iff.mp htl
        rw [hf2, htl2]
        exact ih (acc1 ++ [(di.name, m1)]) (acc2 ++ [(di.name, m2)]) r1
          (relR_append hacc (List.Forall₂.cons ⟨rfl, hm⟩ List.Forall₂.nil)) h
      | cons x xs =>
        exact Except.noConfusion h

/-- The keys of a successfully resolved map are the accumulated keys
followed by the required names. -/
theorem resolveInputsGo_keys (node : Node) (pool : List DataInformation) :
    ∀ (req : List DataInformation) (acc r : List (String × DataInformation)),
      resolveInputsGo node pool req acc = .ok r →
      r.map Prod.fst = acc.map Prod.fst ++ req.map DataInformation.name := by
  intro req
  induction req with
  | nil =>
    intro acc r h
    simp only [resolveInputsGo, Except.ok.injEq] at h
    simp [← h]
  | cons di rest ih =>
    intro acc r h
    simp only [resolveInputsGo] at h
    cases hf : pool.filter (fun i => di.match_static i (node.get_input_aliases di.name)) with
    | nil => rw [hf] at h; exact Except.noConfusion h
    | cons m1 tl1 =>
      rw [hf] at h
      cases tl1 with
      | nil =>
        have := ih (acc ++ [(di.name, m1)]) r h
        simpa using this
      | cons x xs => exact Except.noConfusion h

/-- Every resolved envelope comes from the accumulator or the pool. -/
theorem resolveInputsGo_sub (node : Node) (pool : List DataInformation) :
    ∀ (req : List DataInformation) (acc r : List (String × DataInformation)),
      resolveInputsGo node pool req acc = .ok r →
      ∀ kv ∈ r, kv ∈ acc ∨ kv.2 ∈ pool := by
  intro req
  induction req with
  | nil =>
    intro acc r h kv hm
    simp only [resolveInputsGo, Except.ok.injEq] at h
    exact Or.inl (h ▸ hm)
  | cons di rest ih =>
    intro acc r h kv hm
    simp only [resolveInputsGo] at h
    cases hf : pool.filter (fun i => di.match_static i (node.get_input_aliases di.name)) with
    | nil => rw [hf] at h; exact Except.noConfusion h
    | cons m1 tl1 =>
      rw [hf] at h
      cases tl1 with
      | nil =>
        rcases ih (acc ++ [(di.name, m1)]) r h kv hm with hacc | hpool
        · rcases List.mem_append.mp hacc with h1 | h2
          · exact Or.inl h1
          · right
            have : kv = (di.name, m1) := by simpa using h2
            rw [this]
            have : m1 ∈ pool.filter (fun i => di.match_static i (node.get_input_aliases di.name)) := by
              rw [hf]; exact List.mem_cons_self m1 []
            exact List.mem_of_mem_filter this
        · exact Or.inr hpool
      | cons x xs => exact Except.noConfusion h

/-- When every resolved input carries a present hash that the metadata
judges current, the skip-decision loop keeps `SKIPPED`. -/
theorem computeStateGo_all_current (node : Node) (meta : MetaStore) :
    ∀ (R : List (String × DataInformation)),
      (∀ kv ∈ R, ∃ hv, kv.2.hash = some hv ∧
        ∃ m, alookup node.get_persistent_hash meta = some m
          ∧ m.is_current_input kv.1 (some hv) = true) →
      computeStateGo node meta .SKIPPED R = .ok .SKIPPED := by
  intro R
  induction R with
  | nil => intro _; rfl
  | cons kv rest ih =>
    intro h
    obtain ⟨hv, hhash, m, hma, hcur⟩ := h kv (List.mem_cons_self kv rest)
    have hrest := fun kv2 hm2 => h kv2 (List.mem_cons_of_mem kv hm2)
    obtain ⟨k, d⟩ := kv
    simp only [computeStateGo]
    simp only at hhash
    rw [hhash]
    simp only [metaGet, hma, hcur]
    simpa using ih hrest

/-! ### File-input lemmas -/

theorem file_inputs_hash_some (n : Node) (env : Env) (fs : FileSystem) :
    ∀ d ∈ n.get_available_file_inputs env fs, ∃ v, d.hash = some v := by
  intro d hd
  unfold Node.get_available_file_inputs at hd
  cases hdir : n.input_directory with
  | none => rw [hdir] at hd; cases hd
  | some dir =>
    rw [hdir] at hd
    obtain ⟨e, he, rfl⟩ := List.mem_map.mp hd
    have hmem : e ∈ fs := mem_filterDir_sub fs (resolveDir env dir) e he
    have hsome := mem_lookup_isSome fs e hmem
    simp only [DataInformation.with_hash, DataInformation.update_hash,
      DataInformation.get_hash, DataInformation.init]
    cases hl : fsLookup fs e.1 with
    | none => rw [fsLookup] at hl; rw [hl] at hsome; cases hsome
    | some v => exact ⟨sha256 v, by simp [get_file_hash, hl]⟩

theorem file_inputs_congr (n : Node) (env : Env) (fs1 fs2 : FileSystem)
    (h : ∀ d, n.input_directory = some d →
        filterDir fs1 (resolveDir env d) = filterDir fs2 (resolveDir env d)) :
    n.get_available_file_inputs env fs1 = n.get_available_file_inputs env fs2 := by
  unfold Node.get_available_file_inputs
  cases hdir : n.input_directory with
  | none => rfl
  | some dir =>
    have hfd := h dir hdir
    dsimp only
    rw [hfd]
    apply List.map_congr_left
    intro e he
    have hdirs : e.1.dirs = resolveDir env dir := mem_filterDir_dirs fs2 (resolveDir env dir) e he
    have hlk : fsLookup fs1 e.1 = fsLookup fs2 e.1 := by
      rw [fsLookup, fsLookup, ← alookup_filterDir fs1 (resolveDir env dir) e.1 hdirs,
        ← alookup_filterDir fs2 (resolveDir env dir) e.1 hdirs, hfd]
    simp [DataInformation.with_hash, DataInformation.update_hash, DataInformation.get_hash,
      DataInformation.init, get_file_hash, hlk]

/-! ### Node-execution bookkeeping lemmas -/

theorem metaGet_ok (meta : MetaStore) (node : Node) (m : RunNodeMeta)
    (h : metaGet meta node = .ok m) : alookup node.get_persistent_hash meta = some m := by
  unfold metaGet at h
  cases hl : alookup node.get_persistent_hash meta with
  | none => rw [hl] at h; exact Except.noConfusion h
  | some m0 => rw [hl] at h; cases h; rfl

theorem with_value_spec (d : DataInformation) (v : Value) (msg : String) (r : DataInformation)
    (h : d.with_value v msg = .ok r) : r = { d with value := some v } := by
  unfold DataInformation.with_value at h
  split at h
  · exact Except.noConfusion h
  · cases h; rfl

theorem get_file_hash_save_self (s : DataSerializer) (fs : FileSystem) (p : FsPath)
    (v : Value) : get_file_hash (s.save fs p v) p = some (sha256 v) :=
  get_file_hash_fsWrite_self fs p v

theorem finishExec_spec (n : Node) (args : List (String × DataInformation))
    (result resO : Option DataInformation) (σ σ2 : RunState)
    (h : finishExec n args result σ = .ok (resO, σ2)) :
    resO = result
    ∧ σ2.fs = σ.fs ∧ σ2.invoked = σ.invoked
    ∧ (∀ k, k ≠ n.runtime_id → alookup k σ2.states = alookup k σ.states)
    ∧ updateInputHashesGo n args σ.meta = .ok σ2.meta := by
  unfold finishExec at h
  cases hu : updateInputHashesGo n args σ.meta with
  | error e => rw [hu] at h; exact Except.noConfusion h
  | ok meta2 =>
    rw [hu] at h
    simp only [Except.ok.injEq, Prod.mk.injEq] at h
    obtain ⟨h1, h2⟩ := h
    subst h2
    refine ⟨h1.symm, rfl, rfl, ?_, by simp only [setState]⟩
    intro k hk
    simp [setState, alookup_ainsert_ne k n.runtime_id _ (fun hc => hk hc.symm)]

theorem updiGo_meta_other (node : Node) :
    ∀ (args : List (String × DataInformation)) (meta meta' : MetaStore),
      updateInputHashesGo node args meta = .ok meta' →
      ∀ hh, hh ≠ node.get_persistent_hash → alookup hh meta' = alookup hh meta := by
  intro args
  induction args with
  | nil =>
    intro meta meta' h hh _
    simp only [updateInputHashesGo, Except.ok.injEq] at h
    rw [h]
  | cons kv rest ih =>
    intro meta meta' h hh hne
    simp only [updateInputHashesGo] at h
    cases hh2 : kv.2.hash with
    | none => rw [hh2] at h; exact ih meta meta' h hh hne
    | some hv =>
      rw [hh2] at h
      cases hmg : metaGet meta node with
      | error e => rw [hmg] at h; exact Except.noConfusion h
      | ok m =>
        rw [hmg] at h
        have hrec := ih _ meta' h hh hne
        rw [hrec, alookup_ainsert_ne hh node.get_persistent_hash _ (Ne.symm hne)]

theorem updiGo_isSome (node : Node) :
    ∀ (args : List (String × DataInformation)) (meta meta' : MetaStore),
      updateInputHashesGo node args meta = .ok meta' →
      ∀ hh, (alookup hh meta).isSome → (alookup hh meta').isSome := by
  intro args
  induction args with
  | nil =>
    intro meta meta' h hh hs
    simp only [updateInputHashesGo, Except.ok.injEq] at h
    rw [← h]; exact hs
  | cons kv rest ih =>
    intro meta meta' h hh hs
    simp only [updateInputHashesGo] at h
    cases hh2 : kv.2.hash with
    | none => rw [hh2] at h; exact ih meta meta' h hh hs
    | some hv =>
      rw [hh2] at h
      cases hmg : metaGet meta node with
      | error e => rw [hmg] at h; exact Except.noConfusion h
      | ok m =>
        rw [hmg] at h
        exact ih _ meta' h hh (alookup_ainsert_isSome hh node.get_persistent_hash _ meta hs)

theorem updiGo_slot_other (node : Node) :
    ∀ (args : List (String × DataInformation)) (meta meta' : MetaStore),
      updateInputHashesGo node args meta = .ok meta' →
      ∀ pname, pname ∉ args.map Prod.fst →
      ∀ m', alookup node.get_persistent_hash meta' = some m' →
      ∃ m, alookup node.get_persistent_hash meta = some m
        ∧ alookup pname m'.input_hashes = alookup pname m.input_hashes := by
  intro args
  induction args with
  | nil =>
    intro meta meta' h pname _ m' hm'
    simp only [updateInputHashesGo, Except.ok.injEq] at h
    exact ⟨m', by rw [h]; exact hm', rfl⟩
  | cons kv rest ih =>
    intro meta meta' h pname hnot m' hm'
    simp only [List.map_cons, List.mem_cons, not_or] at hnot
    simp only [updateInputHashesGo] at h
    cases hh2 : kv.2.hash with
    | none => rw [hh2] at h; exact ih meta meta' h pname hnot.2 m' hm'
    | some hv =>
      rw [hh2] at h
      cases hmg : metaGet meta node with
      | error e => rw [hmg] at h; exact Except.noConfusion h
      | ok m0 =>
        rw [hmg] at h
        obtain ⟨m1, hm1, hslot⟩ := ih _ meta' h pname hnot.2 m' hm'
        rw [alookup_ainsert_self] at hm1
        cases hm1
        refine ⟨m0, metaGet_ok meta node m0 hmg, ?_⟩
        rw [hslot]
        simp only [RunNodeMeta.update_input_hash]
        exact alookup_ainsert_ne pname kv.1 (some hv) (fun hc => hnot.1 hc.symm) m0.input_hashes

theorem updiGo_stores (node : Node) :
    ∀ (args : List (String × DataInformation)) (meta meta' : MetaStore),
      updateInputHashesGo node args meta = .ok meta' →
      (args.map Prod.fst).Nodup →
      ∀ pname d hv, (pname, d) ∈ args → d.hash = some hv →
      ∃ m', alookup node.get_persistent_hash meta' = some m'
        ∧ alookup pname m'.input_hashes = some (some hv) := by
  intro args
  induction args with
  | nil => intro meta meta' _ _ pname d hv hm _; cases hm
  | cons kv rest ih =>
    intro meta meta' h hnd pname d hv hmem hhash
    simp only [List.map_cons, List.nodup_cons] at hnd
    simp only [updateInputHashesGo] at h
    rcases List.mem_cons.mp hmem with heq | hmem2
    · subst heq
      simp only at h
      rw [hhash] at h
      cases hmg : metaGet meta node with
      | error e => rw [hmg] at h; exact Except.noConfusion h
      | ok m0 =>
        rw [hmg] at h
        have hpn : pname ∉ rest.map Prod.fst := hnd.1
        have hsome1 : (alookup node.get_persistent_hash
            (ainsert node.get_persistent_hash (m0.update_input_hash pname hv) meta)).isSome := by
          rw [alookup_ainsert_self]; rfl
        have hsome2 := updiGo_isSome node rest _ meta' h node.get_persistent_hash hsome1
        cases hm' : alookup node.get_persistent_hash meta' with
        | none => rw [hm'] at hsome2; cases hsome2
        | some m' =>
          obtain ⟨m1, hm1, hslot⟩ := updiGo_slot_other node rest _ meta' h pname hpn m' hm'
          rw [alookup_ainsert_self] at hm1
          cases hm1
          refine ⟨m', rfl, ?_⟩
          rw [hslot]
          simp only [RunNodeMeta.update_input_hash]
          exact alookup_ainsert_self pname (some hv) m0.input_hashes
    · cases hh2 : kv.2.hash with
      | none => rw [hh2] at h; exact ih meta meta' h hnd.2 pname d hv hmem2 hhash
      | some hv0 =>
        rw [hh2] at h
        cases hmg : metaGet meta node with
        | error e => rw [hmg] at h; exact Except.noConfusion h
        | ok m0 =>
          rw [hmg] at h
          exact ih _ meta' h hnd.2 pname d hv hmem2 hhash

/-- The observable effects of a successful cached `NodeExecutor.execute`:
the output envelope is computed, the output file is written at its path,
the returned envelope carries the file's fresh digest, all argument hashes
are recorded under the node's persistent hash, and nothing else changes. -/
theorem executeNode_cached_spec (n : Node) (env : Env) (σ : RunState)
    (args : List (String × DataInformation)) (res : DataInformation) (σ2 : RunState)
    (hc : n.is_cached = true)
    (h : executeNode n env σ args = .ok (some res, σ2)) :
    ∃ out p v,
      n.get_output_information env σ.fs = .ok (some out)
      ∧ out.path = some p
      ∧ res.name = out.name ∧ res.type = out.type ∧ res.hash = some (sha256 v)
      ∧ σ2.fs = fsWrite σ.fs p v
      ∧ σ2.invoked = σ.invoked ++ [n.name]
      ∧ (∀ k, k ≠ n.runtime_id → alookup k σ2.states = alookup k σ.states)
      ∧ (∀ hh, hh ≠ n.get_persistent_hash → alookup hh σ2.meta = alookup hh σ.meta)
      ∧ (alookup n.get_persistent_hash σ2.meta).isSome
      ∧ ((args.map Prod.fst).Nodup →
          ∀ pname d hv, (pname, d) ∈ args → d.hash = some hv →
          ∃ m, alookup n.get_persistent_hash σ2.meta = some m
            ∧ alookup pname m.input_hashes = some (some hv)) := by
  simp only [executeNode, setState, hc, if_true] at h
  cases hrv : resolveValuesGo n env σ.fs args [] with
  | error e => rw [hrv] at h; exact Except.noConfusion h
  | ok input_values =>
  rw [hrv] at h
  dsimp only at h
  cases hout : n.get_output_information env σ.fs with
  | error e => rw [hout] at h; exact Except.noConfusion h
  | ok outOpt =>
  rw [hout] at h
  cases outOpt with
  | none =>
    dsimp only at h
    obtain ⟨h1, _⟩ := finishExec_spec n args none (some res) _ σ2 h
    exact Option.noConfusion h1
  | some output =>
      dsimp only at h
      split at h
      · exact Except.noConfusion h
      · rename_i result hwv
        split at h
        · exact Except.noConfusion h
        · rename_i p hpath
          split at h
          · exact Except.noConfusion h
          · rename_i serializer hser
            split at h
            · rename_i heqn
              rw [get_file_hash_save_self] at heqn
              exact Option.noConfusion heqn
            · rename_i hsh heqs
              rw [get_file_hash_save_self] at heqs
              have hsh_eq : sha256 (n.function.impl (bindArgs n input_values)) = hsh :=
                Option.some.inj heqs
              split at h
              · exact Except.noConfusion h
              · rename_i m hmg
                obtain ⟨h1, h2, h3, h4, h5⟩ :=
                  finishExec_spec n args (some { result with hash := some hsh }) (some res) _ σ2 h
                have hres : res = { result with hash := some hsh } := Option.some.inj h1
                have hresult := with_value_spec output (n.function.impl (bindArgs n input_values)) _ result hwv
                refine ⟨output, p, n.function.impl (bindArgs n input_values),
                  rfl, hpath, ?_, ?_, ?_, ?_, ?_, ?_, ?_, ?_, ?_⟩
                · rw [hres, hresult]
                · rw [hres, hresult]
                · rw [hres, hsh_eq]
                · rw [h2]; rfl
                · rw [h3]
                · intro k hk
                  rw [h4 k hk]
                  exact alookup_ainsert_ne k n.runtime_id _ (fun hcc => hk hcc.symm) σ.states
                · intro hh hhne
                  rw [updiGo_meta_other n args _ σ2.meta h5 hh hhne]
                  exact alookup_ainsert_ne hh n.get_persistent_hash _ (Ne.symm hhne) σ.meta
                · refine updiGo_isSome n args _ σ2.meta h5 n.get_persistent_hash ?_
                  rw [alookup_ainsert_self]; rfl
                · intro hnd pname d hv hmem hhash
                  exact updiGo_stores n args _ σ2.meta h5 hnd pname d hv hmem hhash

/-- Destructuring of one non-skipped cached step of the execution loop. -/
theorem execStep_cached_spec (env : Env) (node : Node) (inbox inbox2 : Inbox)
    (σ σ2 : RunState) (hc : node.is_cached = true)
    (hst : (getState σ node.runtime_id == ExecutionState.SKIPPED) = false)
    (h : execStep env node inbox σ = .ok (inbox2, σ2)) :
    ∃ R res σmid,
      resolve_node_inputs env σ.fs node (popOrDefault node.runtime_id inbox).1 = .ok R
      ∧ executeNode node env σ R = .ok (some res, σmid)
      ∧ inbox2 = append_multiple (popOrDefault node.runtime_id inbox).2 node.subsequent_nodes res
      ∧ σ2 = setState σmid node.runtime_id .EXECUTED := by
  simp only [execStep, hst, Bool.false_eq_true, if_false, hc, if_true] at h
  cases hres : resolve_node_inputs env σ.fs node (popOrDefault node.runtime_id inbox).1 with
  | error e => rw [hres] at h; exact Except.noConfusion h
  | ok R =>
  rw [hres] at h
  dsimp only at h
  cases hex : executeNode node env σ R with
  | error ep => rw [hex] at h; exact Except.noConfusion h
  | ok resPair =>
  rw [hex] at h
  obtain ⟨resO, σmid⟩ := resPair
  dsimp only at h
  cases resO with
  | none => exact Except.noConfusion h
  | some res =>
    dsimp only at h
    simp only [Except.ok.injEq, Prod.mk.injEq] at h
    exact ⟨R, res, σmid, rfl, hex, h.1.symm, h.2.symm⟩

/-- A successful execution step preserves files outside the node's output
path, directory listings outside its output directory, metadata records of
other persistent hashes, and states of other executors. -/
theorem execStep_preserves (env : Env) (node : Node) (inbox inbox2 : Inbox)
    (σ σ2 : RunState) (hc : node.is_cached = true)
    (h : execStep env node inbox σ = .ok (inbox2, σ2)) :
    (∀ p, outputPathOf env node ≠ some p → fsLookup σ2.fs p = fsLookup σ.fs p)
    ∧ (∀ D, (∀ q, outputPathOf env node = some q → q.dirs ≠ D) →
        filterDir σ2.fs D = filterDir σ.fs D)
    ∧ (∀ hh, hh ≠ node.get_persistent_hash → alookup hh σ2.meta = alookup hh σ.meta)
    ∧ (∀ k, k ≠ node.runtime_id → alookup k σ2.states = alookup k σ.states) := by
  cases hst : getState σ node.runtime_id == ExecutionState.SKIPPED with
  | true =>
    simp only [execStep, hst, if_true] at h
    simp only [Except.ok.injEq, Prod.mk.injEq] at h
    rw [← h.2]
    exact ⟨fun _ _ => rfl, fun _ _ => rfl, fun _ _ => rfl, fun _ _ => rfl⟩
  | false =>
    obtain ⟨R, res, σmid, hres, hex, hib, hσ2⟩ :=
      execStep_cached_spec env node inbox inbox2 σ σ2 hc hst h
    obtain ⟨out, p, v, hout, hpath, _, _, _, hfs, _, hstates, hmeta, _, _⟩ :=
      executeNode_cached_spec node env σ R res σmid hc hex
    have hop : outputPathOf env node = some p := by
      rw [outputPathOf_eq node env σ.fs out hout, hpath]
    subst hσ2
    refine ⟨?_, ?_, ?_, ?_⟩
    · intro q hq
      have hpq : p ≠ q := fun hcontra => hq (by rw [hop, hcontra])
      simp only [setState]
      rw [hfs, fsLookup_fsWrite_ne σ.fs p q v hpq]
    · intro D hD
      have hpd : p.dirs ≠ D := hD p hop
      simp only [setState]
      rw [hfs, filterDir_fsWrite_ne σ.fs p v D hpd]
    · intro hh hhne
      simp only [setState]
      exact hmeta hh hhne
    · intro k hk
      simp only [setState]
      rw [alookup_ainsert_ne k node.runtime_id _ (fun hcc => hk hcc.symm), hstates k hk]

/-- Preservation along a fully successful execution pass. -/
theorem execGo_preserves (env : Env) :
    ∀ (S : List Node) (I : Inbox) (σ σq : RunState),
      (∀ n ∈ S, n.is_cached = true) → execGo env S I σ = .ok σq →
      (∀ p, (∀ m ∈ S, outputPathOf env m ≠ some p) → fsLookup σq.fs p = fsLookup σ.fs p)
      ∧ (∀ D, (∀ m ∈ S, ∀ q, outputPathOf env m = some q → q.dirs ≠ D) →
          filterDir σq.fs D = filterDir σ.fs D)
      ∧ (∀ hh, (∀ m ∈ S, m.get_persistent_hash ≠ hh) → alookup hh σq.meta = alookup hh σ.meta)
      ∧ (∀ k, (∀ m ∈ S, m.runtime_id ≠ k) → alookup k σq.states = alookup k σ.states) := by
  intro S
  induction S with
  | nil =>
    intro I σ σq _ h
    simp only [execGo, Except.ok.injEq] at h
    subst h
    exact ⟨fun _ _ => rfl, fun _ _ => rfl, fun _ _ => rfl, fun _ _ => rfl⟩
  | cons nd rest ih =>
    intro I σ σq hcached h
    simp only [execGo] at h
    cases hstep : execStep env nd I σ with
    | error e => rw [hstep] at h; exact Except.noConfusion h
    | ok pr =>
    rw [hstep] at h
    obtain ⟨inbox2, σ2⟩ := pr
    dsimp only at h
    have hc := hcached nd (List.mem_cons_self nd rest)
    obtain ⟨hp1, hd1, hm1, hs1⟩ := execStep_preserves env nd I inbox2 σ σ2 hc hstep
    obtain ⟨hp2, hd2, hm2, hs2⟩ :=
      ih inbox2 σ2 σq (fun m hm => hcached m (List.mem_cons_of_mem nd hm)) h
    refine ⟨?_, ?_, ?_, ?_⟩
    · intro p hp
      rw [hp2 p (fun m hm => hp m (List.mem_cons_of_mem nd hm)),
        hp1 p (hp nd (List.mem_cons_self nd rest))]
    · intro D hD
      rw [hd2 D (fun m hm => hD m (List.mem_cons_of_mem nd hm)),
        hd1 D (hD nd (List.mem_cons_self nd rest))]
    · intro hh hhne
      rw [hm2 hh (fun m hm => hhne m (List.mem_cons_of_mem nd hm)),
        hm1 hh (Ne.symm (hhne nd (List.mem_cons_self nd rest)))]
    · intro k hk
      rw [hs2 k (fun m hm => hk m (List.mem_cons_of_mem nd hm)),
        hs1 k (Ne.symm (hk nd (List.mem_cons_self nd rest)))]

/-- A pass over all-skipped executors does nothing at all. -/
theorem execGo_all_skipped (env : Env) :
    ∀ (S : List Node) (I : Inbox) (σ : RunState),
      (∀ n ∈ S, getState σ n.runtime_id = .SKIPPED) →
      execGo env S I σ = .ok σ := by
  intro S
  induction S with
  | nil => intro I σ _; rfl
  | cons nd rest ih =>
    intro I σ hsk
    have hnd : (getState σ nd.runtime_id == ExecutionState.SKIPPED) = true := by
      rw [hsk nd (List.mem_cons_self nd rest)]; rfl
    simp only [execGo, execStep, hnd, if_true]
    exact ih I σ (fun n hn => hsk n (List.mem_cons_of_mem nd hn))

/-- `ensureMeta` preserves the record of a live node already in the store
(persistent hashes pairwise distinct). -/
theorem ensureMeta_lookup_mem :
    ∀ (L : List Node) (meta : MetaStore) (n : Node), n ∈ L →
      (L.map Node.get_persistent_hash).Nodup →
      (alookup n.get_persistent_hash meta).isSome →
      alookup n.get_persistent_hash (ensureMeta L meta) = alookup n.get_persistent_hash meta := by
  intro L
  induction L with
  | nil => intro meta n hmem; cases hmem
  | cons nd rest ih =>
    intro meta n hmem hnd hsome
    simp only [List.map_cons, List.nodup_cons] at hnd
    rcases List.mem_cons.mp hmem with rfl | hmem2
    · simp only [ensureMeta, List.map_cons, alookup, beq_self_eq_true, if_true]
      cases hl : alookup n.get_persistent_hash meta with
      | none => rw [hl] at hsome; cases hsome
      | some m => simp
    · have hne : (nd.get_persistent_hash == n.get_persistent_hash) = false := by
        have : nd.get_persistent_hash ≠ n.get_persistent_hash := by
          intro hcc
          exact hnd.1 (by rw [hcc]; exact List.mem_map_of_mem Node.get_persistent_hash hmem2)
        simpa using this
      simp only [ensureMeta, List.map_cons, alookup, hne, Bool.false_eq_true, if_false]
      exact ih meta n hmem2 hnd.2 hsome

/-- Construction of a skipping preparation step: when the output envelope
is computed, inputs resolve, and every resolved hash is current, the
preparation step enqueues the hash-enriched output and marks the node
`SKIPPED`. -/
theorem prepStep_cached_build (env : Env) (node : Node) (I : Inbox) (σ : RunState)
    (out : DataInformation) (R2 : List (String × DataInformation))
    (hc : node.is_cached = true)
    (hout : node.get_output_information env σ.fs = .ok (some out))
    (hnoself : node.runtime_id ∉ node.subsequent_nodes)
    (hres : resolve_node_inputs env σ.fs node (popOrDefault node.runtime_id I).1 = .ok R2)
    (hcur : computeStateGo node σ.meta .SKIPPED R2 = .ok .SKIPPED) :
    prepStep env node I σ =
      .ok (append_multiple (popOrDefault node.runtime_id I).2 node.subsequent_nodes
            (out.with_hash σ.fs),
           setState σ node.runtime_id .SKIPPED) := by
  simp only [prepStep, hout, hc, Bool.not_true, Bool.false_eq_true, if_false, append_if_eq]
  rw [popOrDefault_append_multiple_ne node.subsequent_nodes I node.runtime_id
    (out.with_hash σ.fs) hnoself]
  dsimp only
  rw [hres]
  dsimp only
  rw [hcur]

/-- The inter-run simulation: if every node of the (sane) suffix is cached,
was `READY`, and run one executed the suffix successfully, then — starting
from the final filesystem and metadata — the preparation pass of run two
marks every node of the suffix `SKIPPED`, touching nothing else. -/
theorem sim (env : Env) (σfin : RunState) :
    ∀ (S : List Node) (I1 I2 : Inbox) (σe σpre : RunState),
      (∀ n ∈ S, n.is_cached = true) →
      (∀ n ∈ S, (n.function.params.map Prod.fst).Nodup) →
      (∀ n ∈ S, n.runtime_id ∉ n.subsequent_nodes) →
      ((S.map Node.runtime_id).Nodup) →
      ((S.map Node.get_persistent_hash).Nodup) →
      (List.Pairwise (fun a b => outputPathOf env a ≠ outputPathOf env b) S) →
      (∀ n ∈ S, ∀ m ∈ S, ∀ q d, outputPathOf env n = some q →
          m.input_directory = some d → q.dirs ≠ resolveDir env d) →
      (∀ n ∈ S, getState σe n.runtime_id = .READY) →
      execGo env S I1 σe = .ok σfin →
      σpre.fs = σfin.fs →
      (∀ n ∈ S, alookup n.get_persistent_hash σpre.meta = alookup n.get_persistent_hash σfin.meta) →
      RelI I1 I2 →
      ∃ σq, prepGo env S I2 σpre = .ok σq
        ∧ σq.fs = σpre.fs ∧ σq.meta = σpre.meta ∧ σq.invoked = σpre.invoked
        ∧ (∀ n ∈ S, getState σq n.runtime_id = .SKIPPED)
        ∧ (∀ k, (∀ n ∈ S, n.runtime_id ≠ k) → alookup k σq.states = alookup k σpre.states) := by
  intro S
  induction S with
  | nil =>
    intro I1 I2 σe σpre _ _ _ _ _ _ _ _ _ _ _ _
    exact ⟨σpre, rfl, rfl, rfl, rfl, fun n hn => absurd hn (List.not_mem_nil n), fun _ _ => rfl⟩
  | cons n rest ih =>
    intro I1 I2 σe σpre hcach hparams hnoself hids hph hpaths hdirs hready hexec hfs hmeta hrel
    have hmemn : n ∈ n :: rest := List.mem_cons_self n rest
    simp only [execGo] at hexec
    cases hstep : execStep env n I1 σe with
    | error e => rw [hstep] at hexec; exact Except.noConfusion hexec
    | ok pr =>
    rw [hstep] at hexec
    obtain ⟨I1', σe'⟩ := pr
    dsimp only at hexec
    have hcn := hcach n hmemn
    have hstn : (getState σe n.runtime_id == ExecutionState.SKIPPED) = false := by
      rw [hready n hmemn]; rfl
    obtain ⟨R1, res, σmid, hres1, hexn, hI1', hσe'⟩ :=
      execStep_cached_spec env n I1 I1' σe σe' hcn hstn hstep
    obtain ⟨out, p, v, hout, hpath, hrname, hrtype, hrhash, hmfs, hminv, hmstates, hmmeta,
      hmsome, hmstores⟩ := executeNode_cached_spec n env σe R1 res σmid hcn hexn
    have hop : outputPathOf env n = some p := by
      rw [outputPathOf_eq n env σe.fs out hout, hpath]
    have hcach_rest : ∀ m ∈ rest, m.is_cached = true :=
      fun m hm => hcach m (List.mem_cons_of_mem n hm)
    obtain ⟨hfs_rest, hdir_rest, hmeta_rest, hstates_rest⟩ :=
      execGo_preserves env rest I1' σe' σfin hcach_rest hexec
    simp only [List.map_cons, List.nodup_cons] at hids hph
    -- the head's output file is untouched by the rest of the run
    have hfsfin_p : fsLookup σfin.fs p = some v := by
      have hppres : ∀ m ∈ rest, outputPathOf env m ≠ some p := by
        intro m hm hcontra
        have hpair := (List.pairwise_cons.mp hpaths).1 m hm
        rw [hop] at hpair
        exact hpair hcontra.symm
      rw [hfs_rest p hppres, hσe']
      simp only [setState]
      rw [hmfs]
      exact fsLookup_fsWrite_self σe.fs p v
    -- the head's metadata record is untouched by the rest of the run
    have hmetafin_n : alookup n.get_persistent_hash σfin.meta
        = alookup n.get_persistent_hash σmid.meta := by
      have hdist : ∀ m ∈ rest, m.get_persistent_hash ≠ n.get_persistent_hash := by
        intro m hm hcontra
        exact hph.1 (by rw [← hcontra]; exact List.mem_map_of_mem _ hm)
      rw [hmeta_rest n.get_persistent_hash hdist, hσe']
      simp [setState]
    -- run-2 output information agrees
    have hout2 : n.get_output_information env σpre.fs = .ok (some out) := by
      rw [get_output_information_fs_indep n env σpre.fs σe.fs]
      exact hout
    -- the enqueued second-run envelope is related to the first-run result
    have hd2hash : (out.with_hash σpre.fs).hash = some (sha256 v) := by
      simp only [DataInformation.with_hash, DataInformation.update_hash,
        DataInformation.get_hash]
      rw [hpath]
      dsimp only
      rw [hfs, get_file_hash, hfsfin_p]
    have hrelD : RelD res (out.with_hash σpre.fs) := by
      refine ⟨?_, ?_, ?_, sha256 v, hrhash⟩
      · rw [hrname]; rfl
      · rw [hrtype]; rfl
      · rw [hd2hash, hrhash]
    -- the head's file inputs agree between the runs
    have hD : ∀ m ∈ (n :: rest), ∀ d, n.input_directory = some d →
        ∀ q, outputPathOf env m = some q → q.dirs ≠ resolveDir env d :=
      fun m hm d hd q hq => hdirs m hm n hmemn q d hq hd
    have hfileseq : Node.get_available_file_inputs n env σpre.fs
        = Node.get_available_file_inputs n env σe.fs := by
      apply file_inputs_congr
      intro d hd
      calc filterDir σpre.fs (resolveDir env d)
          = filterDir σfin.fs (resolveDir env d) := by rw [hfs]
        _ = filterDir σe'.fs (resolveDir env d) :=
            hdir_rest _ (fun m hm q hq => hD m (List.mem_cons_of_mem n hm) d hd q hq)
        _ = filterDir σmid.fs (resolveDir env d) := by rw [hσe']; simp [setState]
        _ = filterDir σe.fs (resolveDir env d) := by
            rw [hmfs]
            exact filterDir_fsWrite_ne σe.fs p v _ (hD n hmemn d hd p hop)
    -- run-2 input resolution succeeds with a related resolved map
    have hpop := relI_pop hrel n.runtime_id
    have hpool : RelL
        ((popOrDefault n.runtime_id I1).1 ++ Node.get_available_file_inputs n env σe.fs)
        ((popOrDefault n.runtime_id I2).1 ++ Node.get_available_file_inputs n env σpre.fs) := by
      rw [hfileseq]
      exact relL_append hpop.1
        (relL_refl_of_hash_some _ (file_inputs_hash_some n env σe.fs))
    obtain ⟨R2, hres2, hRrel⟩ :=
      resolveInputsGo_rel n hpool n.get_required_inputs [] [] R1 List.Forall₂.nil hres1
    -- the resolved keys of run 1 are the parameter names
    have hkeys1 : R1.map Prod.fst = n.function.params.map Prod.fst := by
      have hk := resolveInputsGo_keys n _ n.get_required_inputs [] R1 hres1
      simpa [Node.get_required_inputs, DataInformation.init] using hk
    have hR1nodup : (R1.map Prod.fst).Nodup := by
      rw [hkeys1]; exact hparams n hmemn
    -- every second-run resolved input is judged current
    have hcur : computeStateGo n σpre.meta .SKIPPED R2 = .ok .SKIPPED := by
      apply computeStateGo_all_current
      intro kv2 hkv2
      obtain ⟨kv1, hkv1, hkey, hrelkv⟩ := relR_mem_right hRrel kv2 hkv2
      obtain ⟨_, _, hhash2, hv, hhash1⟩ := hrelkv
      refine ⟨hv, by rw [hhash2, hhash1], ?_⟩
      obtain ⟨m, hm_eq, hm_slot⟩ :=
        hmstores hR1nodup kv1.1 kv1.2 hv (by simpa using hkv1) hhash1
      refine ⟨m, ?_, ?_⟩
      · rw [hmeta n hmemn, hmetafin_n]
        exact hm_eq
      · simp only [RunNodeMeta.is_current_input]
        rw [← hkey, hm_slot]
        simp
    have hprep_head := prepStep_cached_build env n I2 σpre out R2 hcn hout2
      (hnoself n hmemn) hres2 hcur
    -- recurse over the rest
    have hready' : ∀ m ∈ rest, getState σe' m.runtime_id = .READY := by
      intro m hm
      have hne : m.runtime_id ≠ n.runtime_id := by
        intro hcontra
        exact hids.1 (by rw [← hcontra]; exact List.mem_map_of_mem _ hm)
      rw [getState, hσe']
      simp only [setState]
      rw [alookup_ainsert_ne m.runtime_id n.runtime_id _ (Ne.symm hne), hmstates m.runtime_id hne]
      exact hready m (List.mem_cons_of_mem n hm)
    have hmeta' : ∀ m ∈ rest,
        alookup m.get_persistent_hash (setState σpre n.runtime_id .SKIPPED).meta
          = alookup m.get_persistent_hash σfin.meta := by
      intro m hm
      simp only [setState]
      exact hmeta m (List.mem_cons_of_mem n hm)
    have hrel' : RelI I1'
        (append_multiple (popOrDefault n.runtime_id I2).2 n.subsequent_nodes
          (out.with_hash σpre.fs)) := by
      rw [hI1']
      exact relI_append_multiple hpop.2 n.subsequent_nodes hrelD
    obtain ⟨σq, hq1, hq2, hq3, hq4, hq5, hq6⟩ := ih I1'
      (append_multiple (popOrDefault n.runtime_id I2).2 n.subsequent_nodes
        (out.with_hash σpre.fs))
      σe' (setState σpre n.runtime_id .SKIPPED)
      hcach_rest
      (fun m hm => hparams m (List.mem_cons_of_mem n hm))
      (fun m hm => hnoself m (List.mem_cons_of_mem n hm))
      hids.2 hph.2 (List.pairwise_cons.mp hpaths).2
      (fun a ha m hm q d hq hd =>
        hdirs a (List.mem_cons_of_mem n ha) m (List.mem_cons_of_mem n hm) q d hq hd)
      hready' hexec (by simp [setState, hfs]) hmeta' hrel'
    refine ⟨σq, ?_, ?_, ?_, ?_, ?_, ?_⟩
    · simp only [prepGo, hprep_head]
      exact hq1
    · rw [hq2]; simp [setState]
    · rw [hq3]; simp [setState]
    · rw [hq4]; simp [setState]
    · intro m hm
      rcases List.mem_cons.mp hm with rfl | hm2
      · have hne : ∀ a ∈ rest, a.runtime_id ≠ m.runtime_id := by
          intro a ha hcontra
          exact hids.1 (by rw [← hcontra]; exact List.mem_map_of_mem _ ha)
        rw [getState, hq6 m.runtime_id hne]
        simp [setState, alookup_ainsert_self]
      · exact hq5 m hm2
    · intro k hk
      rw [hq6 k (fun a ha => hk a (List.mem_cons_of_mem n ha))]
      simp only [setState]
      exact alookup_ainsert_ne k n.runtime_id _ (hk n hmemn) σpre.states

/-- A successful execution step never removes a metadata record. -/
theorem execStep_meta_isSome_mono (env : Env) (node : Node) (inbox inbox2 : Inbox)
    (σ σ2 : RunState) (hc : node.is_cached = true)
    (h : execStep env node inbox σ = .ok (inbox2, σ2)) :
    ∀ hh, (alookup hh σ.meta).isSome → (alookup hh σ2.meta).isSome := by
  intro hh hsome
  cases hst : getState σ node.runtime_id == ExecutionState.SKIPPED with
  | true =>
    simp only [execStep, hst, if_true, Except.ok.injEq, Prod.mk.injEq] at h
    rw [← h.2]
    exact hsome
  | false =>
    obtain ⟨R, res, σmid, _, hex, _, hσ2⟩ :=
      execStep_cached_spec env node inbox inbox2 σ σ2 hc hst h
    obtain ⟨_, _, _, _, _, _, _, _, _, _, _, hmmeta, hmsome, _⟩ :=
      executeNode_cached_spec node env σ R res σmid hc hex
    subst hσ2
    by_cases hph : hh = node.get_persistent_hash
    · subst hph
      simpa [setState] using hmsome
    · simp only [setState]
      rw [hmmeta hh hph]
      exact hsome

/-- A successful execution pass never removes a metadata record. -/
theorem execGo_meta_isSome_mono (env : Env) :
    ∀ (S : List Node) (I : Inbox) (σ σq : RunState),
      (∀ m ∈ S, m.is_cached = true) → execGo env S I σ = .ok σq →
      ∀ hh, (alookup hh σ.meta).isSome → (alookup hh σq.meta).isSome := by
  intro S
  induction S with
  | nil =>
    intro I σ σq _ h hh hsome
    simp only [execGo, Except.ok.injEq] at h
    rw [← h]
    exact hsome
  | cons nd rest ih =>
    intro I σ σq hcach h hh hsome
    simp only [execGo] at h
    cases hstep : execStep env nd I σ with
    | error e => rw [hstep] at h; exact Except.noConfusion h
    | ok pr =>
    rw [hstep] at h
    obtain ⟨inbox2, σ2⟩ := pr
    dsimp only at h
    exact ih inbox2 σ2 σq (fun m hm => hcach m (List.mem_cons_of_mem nd hm)) h hh
      (execStep_meta_isSome_mono env nd I inbox2 σ σ2
        (hcach nd (List.mem_cons_self nd rest)) hstep hh hsome)

/-- After a run that executed every node, every node has a metadata
record. -/
theorem execGo_meta_isSome (env : Env) :
    ∀ (S : List Node) (I : Inbox) (σ σq : RunState),
      (∀ m ∈ S, m.is_cached = true) →
      (∀ m ∈ S, getState σ m.runtime_id = .READY) →
      ((S.map Node.runtime_id).Nodup) →
      execGo env S I σ = .ok σq →
      ∀ m ∈ S, (alookup m.get_persistent_hash σq.meta).isSome := by
  intro S
  induction S with
  | nil => intro I σ σq _ _ _ _ m hm; cases hm
  | cons nd rest ih =>
    intro I σ σq hcach hready hids h m hm
    simp only [execGo] at h
    cases hstep : execStep env nd I σ with
    | error e => rw [hstep] at h; exact Except.noConfusion h
    | ok pr =>
    rw [hstep] at h
    obtain ⟨inbox2, σ2⟩ := pr
    dsimp only at h
    simp only [List.map_cons, List.nodup_cons] at hids
    have hcn := hcach nd (List.mem_cons_self nd rest)
    have hstn : (getState σ nd.runtime_id == ExecutionState.SKIPPED) = false := by
      rw [hready nd (List.mem_cons_self nd rest)]; rfl
    obtain ⟨R, res, σmid, _, hex, _, hσ2⟩ :=
      execStep_cached_spec env nd I inbox2 σ σ2 hcn hstn hstep
    obtain ⟨_, _, _, _, _, _, _, _, _, _, hmstates, _, hmsome, _⟩ :=
      executeNode_cached_spec nd env σ R res σmid hcn hex
    rcases List.mem_cons.mp hm with rfl | hm2
    · refine execGo_meta_isSome_mono env rest inbox2 σ2 σq
        (fun a ha => hcach a (List.mem_cons_of_mem m ha)) h m.get_persistent_hash ?_
      subst hσ2
      simpa [setState] using hmsome
    · refine ih inbox2 σ2 σq (fun a ha => hcach a (List.mem_cons_of_mem nd ha)) ?_ hids.2 h m hm2
      intro a ha
      have hne : a.runtime_id ≠ nd.runtime_id := by
        intro hcontra
        exact hids.1 (by rw [← hcontra]; exact List.mem_map_of_mem _ ha)
      rw [getState]
      subst hσ2
      simp only [setState]
      rw [alookup_ainsert_ne a.runtime_id nd.runtime_id _ (Ne.symm hne),
        hmstates a.runtime_id hne]
      exact hready a (List.mem_cons_of_mem nd ha)

/-- C1 counterexample: the claim quantifies over every namespace graph and
concludes that an immediate re-run after a successful run invokes no user
function.  The singleton graph holding one non-cached node refutes it: the
first run succeeds invoking `NC`, and the immediate second run invokes
`NC` again (non-cached nodes are set `READY` on every run). -/
theorem C1_counterexample :
    (runOnce envT [c1NonCached] sigmaEmpty).toOption.map RunState.invoked = some ["NC"]
    ∧ ((runOnce envT [c1NonCached] sigmaEmpty).toOption.bind
        (fun σ1 => (runOnce envT [c1NonCached] σ1).toOption)).map RunState.invoked
      = some ["NC"] := by
  constructor
  · decide
  · decide

/-- C1 (amended): over a namespace graph in which every node is cached,
with pairwise-distinct output paths lying outside every input directory,
distinct runtime ids and persistent hashes, no self-loops and duplicate-free
parameter lists: if a run prepared every node `READY` and then executed
successfully, the immediately following run prepares every node through
`SKIPPED`, its execution phase is a no-op, and no user function is invoked
during it. -/
theorem C1_amended_rerun_skips_all (env : Env) (L : List Node) (σp σ1 : RunState)
    (Hcached : ∀ n ∈ L, n.is_cached = true)
    (Hparams : ∀ n ∈ L, (n.function.params.map Prod.fst).Nodup)
    (Hnoself : ∀ n ∈ L, n.runtime_id ∉ n.subsequent_nodes)
    (Hids : (L.map Node.runtime_id).Nodup)
    (Hph : (L.map Node.get_persistent_hash).Nodup)
    (Hpaths : List.Pairwise (fun a b => outputPathOf env a ≠ outputPathOf env b) L)
    (Hdirs : ∀ n ∈ L, ∀ m ∈ L, ∀ q d, outputPathOf env n = some q →
        m.input_directory = some d → q.dirs ≠ resolveDir env d)
    (Hready : ∀ n ∈ L, getState σp n.runtime_id = .READY)
    (Hexec1 : execGo env L [] σp = .ok σ1) :
    ∃ σq, runOnce env L σ1 = .ok σq
      ∧ σq.invoked = []
      ∧ (∀ n ∈ L, getState σq n.runtime_id = .SKIPPED) := by
  have hsome : ∀ n ∈ L, (alookup n.get_persistent_hash σ1.meta).isSome :=
    execGo_meta_isSome env L [] σp σ1 Hcached Hready Hids Hexec1
  have hmeta : ∀ n ∈ L, alookup n.get_persistent_hash (resetRun σ1 L).meta
      = alookup n.get_persistent_hash σ1.meta := by
    intro n hn
    exact ensureMeta_lookup_mem L σ1.meta n hn Hph (hsome n hn)
  obtain ⟨σq, hq1, hq2, hq3, hq4, hq5, hq6⟩ :=
    sim env σ1 L [] [] σp (resetRun σ1 L) Hcached Hparams Hnoself Hids Hph Hpaths Hdirs
      Hready Hexec1 rfl hmeta List.Forall₂.nil
  refine ⟨σq, ?_, ?_, hq5⟩
  · simp only [runOnce, hq1]
    exact execGo_all_skipped env L [] σq hq5
  · rw [hq4]; rfl

/-- Closed witness for the amended C1: the concrete one-node cached
pipeline `[c1W]`, after a successful first run ending in `c1WSigma1`,
re-runs to a state in which the node is `SKIPPED` and nothing was
invoked. -/
theorem C1_amended_witness :
    ∃ σq, runOnce envT [c1W] c1WSigma1 = .ok σq
      ∧ σq.invoked = []
      ∧ (∀ n ∈ [c1W], getState σq n.runtime_id = ExecutionState.SKIPPED) := by
  refine C1_amended_rerun_skips_all envT [c1W] c1WSigmaP c1WSigma1 ?_ ?_ ?_ ?_ ?_ ?_ ?_ ?_ ?_
  · intro n hn
    rw [List.mem_singleton] at hn
    subst hn
    rfl
  · intro n hn
    rw [List.mem_singleton] at hn
    subst hn
    decide
  · intro n hn
    rw [List.mem_singleton] at hn
    subst hn
    decide
  · simp
  · simp
  · exact List.pairwise_singleton _ _
  · intro n hn m hm q d hq hd
    rw [List.mem_singleton] at hn hm
    subst hn
    subst hm
    have ho : outputPathOf envT c1W
        = some { dirs := ["ns", "W"], stem := "out", suffix := ".json" } := rfl
    rw [ho] at hq
    injection hq with hq2
    subst hq2
    have hd2 : (some "input" : Option String) = some d := hd
    injection hd2 with hd3
    subst hd3
    decide
  · intro n hn
    rw [List.mem_singleton] at hn
    subst hn
    decide
  · rfl

end CEX
